import Mathlib

/-!
Peer discovery runtime: discovered-peer table, admission, comparison utilities, wire
codec for integers, scheduling of the sending thread, start and stop.

A shallow embedding of the C++ sources

* `include/discovery/discovery_ip_port.h`
* `include/discovery/discovery_discovered_peer.h`
* `include/discovery/discovery_peer_parameters.h`
* `include/discovery/discovery_protocol.h`
* `src/discovery_peer.cpp`

Conventions of the embedding.

* `uint8_t`, `uint16_t`, `uint32_t`, `uint64_t` values are natural numbers; the only
  unsigned arithmetic that can wrap (`++packet_index_`) is reduced modulo `2 ^ 64`.
* `int64_t` clock values are integers.  All of them come from `NowTime()` (a steady
  clock, in milliseconds), so the differences the code forms stay far inside the
  `int64_t` range and are modelled by integer subtraction.
* `std::string` is a list of bytes, `std::list<DiscoveredPeer>` is a `List`.
* An iterator into a list is the position it points at; `end()` is the length.
* The state protected by `mutex_` is threaded explicitly: every member function takes
  the `PeerEnv` it runs on and returns the `PeerEnv` it leaves behind.  Each function
  body below is one critical section of the source.
-/

namespace discovery

/-! ## Data model -/

/-- A `std::string`, as its bytes. -/
abbrev Bytes := List Nat

/-- `IpPort` of `discovery_ip_port.h`: `ip_` is a `uint32_t`, `port_` a `uint16_t`;
both are zero in a default-constructed value. -/
structure IpPort where
  ip : Nat := 0
  port : Nat := 0
deriving DecidableEq, Repr

/-- `ProtocolVersion` is an `enum class` over `uint8_t`; the code converts it to and from
`int` freely, so it is kept as the underlying number. -/
abbrev ProtocolVersion := Nat

/-- `ProtocolVersion::kVersion0`. -/
def kProtocolVersion0 : ProtocolVersion := 0

/-- `ProtocolVersion::kVersion1`. -/
def kProtocolVersion1 : ProtocolVersion := 1

/-- `ProtocolVersion::kCurrent = kVersion1`. -/
def kProtocolVersionCurrent : ProtocolVersion := kProtocolVersion1

/-- `ProtocolVersion::kUnknown = 255`. -/
def kProtocolVersionUnknown : ProtocolVersion := 255

/-- `PacketType` is an `enum class` over `uint8_t`; `Packet::packet_type()` casts the stored
byte, so it is kept as the underlying number. -/
abbrev PacketType := Nat

/-- `PacketType::kIAmHere = 0`. -/
def kPacketIAmHere : PacketType := 0

/-- `PacketType::kIAmOutOfHere = 1`. -/
def kPacketIAmOutOfHere : PacketType := 1

/-- `PacketType::kUnknown = 255`. -/
def kPacketTypeUnknown : PacketType := 255

/-- `PeerParameters::SamePeerMode`. -/
inductive SamePeerMode where
  | kIp
  | kIpAndPort
deriving DecidableEq, Repr

/-- `PeerParameters` of `discovery_peer_parameters.h`, with the defaults of its member
initialisers.  The two durations are held in milliseconds. -/
structure PeerParameters where
  min_supported_protocol_version : ProtocolVersion := kProtocolVersionCurrent
  max_supported_protocol_version : ProtocolVersion := kProtocolVersionCurrent
  application_id : Nat := 0
  can_use_broadcast : Bool := true
  can_use_multicast : Bool := false
  port : Nat := 0
  multicast_group_address : Nat := 0
  send_timeout_ms : Int := 5000
  discovered_peer_ttl_ms : Int := 10000
  can_be_discovered : Bool := false
  can_discover : Bool := false
  discover_self : Bool := false
  same_peer_mode : SamePeerMode := SamePeerMode.kIpAndPort
deriving DecidableEq, Repr

/-- `DiscoveredPeer` of `discovery_discovered_peer.h`. -/
structure DiscoveredPeer where
  ip_port : IpPort := {}
  user_data : Bytes := []
  last_received_packet : Nat := 0
  last_updated : Int := 0
deriving DecidableEq, Repr

/-- `DiscoveredPeer::set_ip_port`. -/
def DiscoveredPeer.set_ip_port (peer : DiscoveredPeer) (ip_port : IpPort) : DiscoveredPeer :=
  { peer with ip_port := ip_port }

/-- `DiscoveredPeer::SetUserData`: stores the user data together with the index of the
packet that carried it. -/
def DiscoveredPeer.SetUserData (peer : DiscoveredPeer) (user_data : Bytes)
    (last_received_packet : Nat) : DiscoveredPeer :=
  { peer with user_data := user_data, last_received_packet := last_received_packet }

/-- `DiscoveredPeer::set_last_updated`. -/
def DiscoveredPeer.set_last_updated (peer : DiscoveredPeer) (last_updated : Int) :
    DiscoveredPeer :=
  { peer with last_updated := last_updated }

/-- `Packet` of `discovery_protocol.h`; `packet_type_` is the raw `uint8_t`. -/
structure Packet where
  packet_type : PacketType := 0
  application_id : Nat := 0
  peer_id : Nat := 0
  snapshot_index : Nat := 0
  user_data : Bytes := []
deriving DecidableEq, Repr

/-- `kInvalidSocket` of the POSIX branch. -/
def kInvalidSocket : Int := -1

/-- The data members of `impl::PeerEnv` (the mutex itself is not data). -/
structure PeerEnv where
  parameters_ : PeerParameters := {}
  peer_id_ : Nat := 0
  binding_sock_ : Int := kInvalidSocket
  sock_ : Int := kInvalidSocket
  packet_index_ : Nat := 0
  exit_ : Bool := false
  user_data_ : Bytes := []
  discovered_peers_ : List DiscoveredPeer := []
deriving DecidableEq, Repr

/-! ## Wire codec (`discovery_protocol.h`) -/

/-- `impl::BufferView`: the string the view points at and the read position. -/
structure BufferView where
  buffer_ : Bytes := []
  parsed_ : Nat := 0
deriving DecidableEq, Repr

/-- `BufferView::push_back`. -/
def BufferView.push_back (buffer_view : BufferView) (c : Nat) : BufferView :=
  { buffer_view with buffer_ := buffer_view.buffer_ ++ [c] }

/-- `BufferView::LeftUnparsed` (`parsed_` only grows through successful reads, so it never
exceeds the size and the `size_t` subtraction does not wrap). -/
def BufferView.LeftUnparsed (buffer_view : BufferView) : Nat :=
  buffer_view.buffer_.length - buffer_view.parsed_

/-- `BufferView::CanRead`. -/
def BufferView.CanRead (buffer_view : BufferView) (num_bytes : Nat) : Bool :=
  decide (buffer_view.parsed_ + num_bytes ≤ buffer_view.buffer_.length)

/-- `BufferView::Read`: `std::string::at` is bounds-checked, so reading at or beyond the end
throws; that outcome is `none`. -/
def BufferView.Read (buffer_view : BufferView) : Option (Nat × BufferView) :=
  match buffer_view.buffer_[buffer_view.parsed_]? with
  | none => none
  | some c => some (c, { buffer_view with parsed_ := buffer_view.parsed_ + 1 })

/-- `impl::SerializeDirection`. -/
inductive SerializeDirection where
  | kSerialize
  | kParse
deriving DecidableEq, Repr

/-- `impl::SerializeUnsignedIntegerBigEndian<ValueType>` with `n = sizeof(ValueType)`.
The result is `none` when `BufferView::Read` throws, and otherwise the returned flag, the
value left in `*value` and the buffer view. -/
def SerializeUnsignedIntegerBigEndian (n : Nat) (direction : SerializeDirection)
    (value : Nat) (buffer_view : BufferView) : Option (Bool × Nat × BufferView) :=
  match direction with
  | SerializeDirection.kSerialize =>
    some (true, value,
      (List.range n).foldl
        (fun view i => view.push_back (((value >>> ((n - i - 1) * 8)) % 256) &&& 0xff))
        buffer_view)
  | SerializeDirection.kParse =>
    if buffer_view.CanRead n then
      ((List.range n).foldl
        (fun state i =>
          match state with
          | none => none
          | some (acc, view) =>
            match view.Read with
            | none => none
            | some (c, view) =>
              some ((acc ||| ((c % 256) <<< ((n - i - 1) * 8))) % 2 ^ (8 * n), view))
        (some (0, buffer_view))).map (fun r => (true, r.1, r.2))
    else
      some (false, 0, buffer_view)

/-- `kMaxUserDataSizeV0`. -/
def kMaxUserDataSizeV0 : Nat := 32768

/-- `kMaxPaddingSizeV0`. -/
def kMaxPaddingSizeV0 : Nat := 32768

/-- `kMaxUserDataSizeV1`. -/
def kMaxUserDataSizeV1 : Nat := 4096

/-- `kMaxPacketSize`. -/
def kMaxPacketSize : Nat := 65536

/-- Modelled from the spec: part of `Packet::Parse`, which is not among the sources.  Reads
one big-endian unsigned integer of `n` bytes with `SerializeUnsignedIntegerBigEndian` in
the parse direction; `none` when the codec reports failure. -/
def parse_uint (n : Nat) (buffer_view : BufferView) : Option (Nat × BufferView) :=
  match SerializeUnsignedIntegerBigEndian n SerializeDirection.kParse 0 buffer_view with
  | some (true, value, view) => some (value, view)
  | _ => none

/-- Modelled from the spec: part of `Packet::Parse` (the job of `SerializeString`, declared
in `discovery_protocol.h` and defined outside the sources).  Reads `size` raw bytes, after
checking that as many remain; `none` when fewer remain. -/
def parse_bytes (size : Nat) (buffer_view : BufferView) : Option (Bytes × BufferView) :=
  if buffer_view.CanRead size then
    some ((buffer_view.buffer_.drop buffer_view.parsed_).take size,
      { buffer_view with parsed_ := buffer_view.parsed_ + size })
  else
    none

/-- Modelled from the spec: part of `Packet::Parse`, which is not among the sources.
Decoding of the fields of one datagram in the V0 or V1 layout of the wire-codec section,
`none` on any structural violation. -/
def parse_fields (buffer : Bytes) : Option (ProtocolVersion × Packet) := do
  let (version, view) ← parse_uint 1 { buffer_ := buffer }
  if version ≠ kProtocolVersion0 ∧ version ≠ kProtocolVersion1 then none
  let (packet_type, view) ← parse_uint 1 view
  if packet_type ≠ kPacketIAmHere ∧ packet_type ≠ kPacketIAmOutOfHere then none
  let (application_id, view) ← parse_uint 4 view
  let (peer_id, view) ← parse_uint 4 view
  let (snapshot_index, view) ← parse_uint 8 view
  let (user_data_size, view) ← parse_uint (if version = kProtocolVersion0 then 4 else 2) view
  if user_data_size >
      (if version = kProtocolVersion0 then kMaxUserDataSizeV0 else kMaxUserDataSizeV1) then
    none
  let (user_data, view) ← parse_bytes user_data_size view
  if version = kProtocolVersion0 then
    let (padding_size, view) ← parse_uint 4 view
    if padding_size > kMaxPaddingSizeV0 then none
    let _ ← parse_bytes padding_size view
  pure (version,
    { packet_type := packet_type, application_id := application_id, peer_id := peer_id,
      snapshot_index := snapshot_index, user_data := user_data })

/-- Modelled from the spec: `Packet::Parse` is defined in a translation unit that is not
among the sources.  Per the wire-codec section it reads the version byte, selects the V0 or
V1 layout (fixed-size big-endian integers, read with `SerializeUnsignedIntegerBigEndian`),
and yields `kProtocolVersionUnknown` on truncation, on an oversized length field, and on a
version or type byte outside the enum. -/
def Packet.Parse (buffer : Bytes) : ProtocolVersion × Packet :=
  match parse_fields buffer with
  | some r => r
  | none => (kProtocolVersionUnknown, {})

/-- Modelled from the spec: `Packet::Serialize` is defined in a translation unit that is not
among the sources.  Per the wire-codec section it fails when the version is not V0 or V1,
when the packet type is not IAmHere or IAmOutOfHere, and when the user data exceeds the cap
of the version; otherwise it writes the V0 layout (with a zero-length padding block) or
the V1 layout, every integer big-endian. -/
def Packet.Serialize (packet : Packet) (protocol_version : ProtocolVersion) : Option Bytes :=
  if protocol_version ≠ kProtocolVersion0 ∧ protocol_version ≠ kProtocolVersion1 then none
  else if packet.packet_type ≠ kPacketIAmHere ∧ packet.packet_type ≠ kPacketIAmOutOfHere then
    none
  else if packet.user_data.length >
      (if protocol_version = kProtocolVersion0 then kMaxUserDataSizeV0
        else kMaxUserDataSizeV1) then
    none
  else do
    let view : BufferView := {}
    let (_, _, view) ←
      SerializeUnsignedIntegerBigEndian 1 SerializeDirection.kSerialize protocol_version view
    let (_, _, view) ←
      SerializeUnsignedIntegerBigEndian 1 SerializeDirection.kSerialize packet.packet_type view
    let (_, _, view) ←
      SerializeUnsignedIntegerBigEndian 4 SerializeDirection.kSerialize
        packet.application_id view
    let (_, _, view) ←
      SerializeUnsignedIntegerBigEndian 4 SerializeDirection.kSerialize packet.peer_id view
    let (_, _, view) ←
      SerializeUnsignedIntegerBigEndian 8 SerializeDirection.kSerialize
        packet.snapshot_index view
    let (_, _, view) ←
      SerializeUnsignedIntegerBigEndian (if protocol_version = kProtocolVersion0 then 4 else 2)
        SerializeDirection.kSerialize packet.user_data.length view
    let view : BufferView := { view with buffer_ := view.buffer_ ++ packet.user_data }
    if protocol_version = kProtocolVersion0 then
      let (_, _, view) ←
        SerializeUnsignedIntegerBigEndian 4 SerializeDirection.kSerialize 0 view
      pure view.buffer_
    else
      pure view.buffer_

/-! ## List primitives used by the runtime -/

/-- `std::find_if(l.begin(), l.end(), p)`: the position of the first element satisfying
`p`, or `l.length` (the `end()` iterator) when there is none. -/
def find_if {α : Type} (p : α → Bool) : List α → Nat
  | [] => 0
  | x :: xs => if p x then 0 else find_if p xs + 1

/-- `std::list::erase(it)` for an iterator `it` that points at an element. -/
def erase {α : Type} : List α → Nat → List α
  | [], _ => []
  | _ :: xs, 0 => xs
  | x :: xs, it + 1 => x :: erase xs it

/-- Mutation through a list iterator: `*it = f(*it)`. -/
def assign_at {α : Type} (f : α → α) : List α → Nat → List α
  | [], _ => []
  | x :: xs, 0 => f x :: xs
  | x :: xs, it + 1 => x :: assign_at f xs it

/-! ## Comparison utilities (`discovery_peer.cpp`, lines 471-506) -/

/-- `Same(mode, lhv, rhv)` on endpoints. -/
def Same (mode : SamePeerMode) (lhv rhv : IpPort) : Bool :=
  match mode with
  | SamePeerMode.kIp => lhv.ip == rhv.ip
  | SamePeerMode.kIpAndPort => (lhv.ip == rhv.ip) && (lhv.port == rhv.port)

/-- `Same(mode, lhv, rhv)` on lists of discovered peers: the first loop returns `false` at
the first peer of `lhv` without a counterpart in `rhv`, the second loop does the same the
other way round. -/
def SameList (mode : SamePeerMode) (lhv rhv : List DiscoveredPeer) : Bool :=
  if lhv.any (fun lhv_peer =>
      find_if (fun rhv_peer => Same mode lhv_peer.ip_port rhv_peer.ip_port) rhv
        == rhv.length) then
    false
  else if rhv.any (fun rhv_peer =>
      find_if (fun lhv_peer => Same mode rhv_peer.ip_port lhv_peer.ip_port) lhv
        == lhv.length) then
    false
  else
    true

/-! ## The discovered-peer table (`discovery_peer.cpp`, lines 290-345) -/

/-- `PeerEnv::processReceivedBuffer`.  `Packet::Parse` lives in a translation unit outside
the modelled sources, so the parser is a parameter: it maps the buffer to the detected
version and the packet it filled in. -/
def processReceivedBuffer (Parse : Bytes → ProtocolVersion × Packet) (env : PeerEnv)
    (cur_time_ms : Int) (from_ : IpPort) (buffer : Bytes) : PeerEnv :=
  let packet_version := (Parse buffer).1
  let packet := (Parse buffer).2
  let is_supported_packet_version : Bool :=
    decide (packet_version ≥ env.parameters_.min_supported_protocol_version) &&
    decide (packet_version ≤ env.parameters_.max_supported_protocol_version)
  if packet_version != kProtocolVersionUnknown && is_supported_packet_version then
    let accept_packet : Bool :=
      if env.parameters_.application_id == packet.application_id then
        if !env.parameters_.discover_self then
          if packet.peer_id != env.peer_id_ then true else false
        else
          true
      else
        false
    if accept_packet then
      let find_it :=
        find_if (fun peer => Same env.parameters_.same_peer_mode peer.ip_port from_)
          env.discovered_peers_
      if packet.packet_type == kPacketIAmHere then
        if find_it == env.discovered_peers_.length then
          let back : DiscoveredPeer := {}
          let back := back.set_ip_port from_
          let back := back.SetUserData packet.user_data packet.snapshot_index
          let back := back.set_last_updated cur_time_ms
          { env with discovered_peers_ := env.discovered_peers_ ++ [back] }
        else
          let update (peer : DiscoveredPeer) : DiscoveredPeer :=
            let update_user_data : Bool :=
              decide (peer.last_received_packet < packet.snapshot_index)
            let peer :=
              if update_user_data then
                peer.SetUserData packet.user_data packet.snapshot_index
              else
                peer
            peer.set_last_updated cur_time_ms
          { env with discovered_peers_ := assign_at update env.discovered_peers_ find_it }
      else if packet.packet_type == kPacketIAmOutOfHere then
        if find_it != env.discovered_peers_.length then
          { env with discovered_peers_ := erase env.discovered_peers_ find_it }
        else
          env
      else
        env
    else
      env
  else
    env

/-- `PeerEnv::deleteIdle`: `remove_if` drops every peer whose silence exceeds the TTL and
keeps the others in place. -/
def deleteIdle (env : PeerEnv) (cur_time_ms : Int) : PeerEnv :=
  { env with discovered_peers_ :=
      env.discovered_peers_.filter (fun peer =>
        !decide (cur_time_ms - peer.last_updated > env.parameters_.discovered_peer_ttl_ms)) }

/-! ## The sender (`discovery_peer.cpp`, lines 197-200 and 347-386) -/

/-- `Packet::set_packet_type`. -/
def Packet.set_packet_type (packet : Packet) (packet_type : PacketType) : Packet :=
  { packet with packet_type := packet_type }

/-- `Packet::set_application_id`. -/
def Packet.set_application_id (packet : Packet) (application_id : Nat) : Packet :=
  { packet with application_id := application_id }

/-- `Packet::set_peer_id`. -/
def Packet.set_peer_id (packet : Packet) (peer_id : Nat) : Packet :=
  { packet with peer_id := peer_id }

/-- `Packet::set_snapshot_index`. -/
def Packet.set_snapshot_index (packet : Packet) (snapshot_index : Nat) : Packet :=
  { packet with snapshot_index := snapshot_index }

/-- `Packet::SwapUserData`, seen from the packet: it takes over the string handed in. -/
def Packet.SwapUserData (packet : Packet) (user_data : Bytes) : Packet :=
  { packet with user_data := user_data }

/-- `INADDR_BROADCAST`. -/
def INADDR_BROADCAST : Nat := 4294967295

/-- `PeerEnv::SetUserData`. -/
def PeerEnv.SetUserData (env : PeerEnv) (user_data : Bytes) : PeerEnv :=
  { env with user_data_ := user_data }

/-- `PeerEnv::sendPacket`.  `Packet::Serialize` lives in a translation unit outside the
modelled sources, so the encoder is a parameter (`none` stands for `false`).  The result
is the state left behind, the packet that was built, and the datagram handed to `sendto`
(destination in host byte order, payload) when serialization succeeded. -/
def sendPacket (Serialize : Packet → ProtocolVersion → Option Bytes) (env : PeerEnv)
    (under_lock : Bool) (protocol_version : ProtocolVersion) (packet_type : PacketType) :
    PeerEnv × Packet × Option (IpPort × Bytes) :=
  let user_data : Bytes := if !under_lock then env.user_data_ else env.user_data_
  let packet : Packet := {}
  let packet := packet.set_packet_type packet_type
  let packet := packet.set_application_id env.parameters_.application_id
  let packet := packet.set_peer_id env.peer_id_
  let packet := packet.set_snapshot_index env.packet_index_
  let packet := packet.SwapUserData user_data
  let env := { env with packet_index_ := (env.packet_index_ + 1) % 2 ^ 64 }
  match Serialize packet protocol_version with
  | none => (env, packet, none)
  | some packet_data =>
    let addr : IpPort := {}
    let addr : IpPort :=
      if env.parameters_.can_use_broadcast then
        { ip := INADDR_BROADCAST, port := env.parameters_.port }
      else addr
    let addr : IpPort :=
      if env.parameters_.can_use_multicast then
        { ip := env.parameters_.multicast_group_address, port := env.parameters_.port }
      else addr
    (env, packet, some (addr, packet_data))

/-! ## Serial executions of the runtime

Every access to the shared state happens inside a critical section of `mutex_` (and
`packet_index_` is touched by the sending thread only), so an execution of a running
`PeerEnv` is a sequence of the calls below, in the order in which they take effect. -/

/-- One call on a running `PeerEnv`, with its arguments. -/
inductive Event where
  | received (cur_time_ms : Int) (from_ : IpPort) (buffer : Bytes)
  | idle (cur_time_ms : Int)
  | send (under_lock : Bool) (protocol_version : ProtocolVersion) (packet_type : PacketType)
  | user_data (user_data : Bytes)
deriving DecidableEq, Repr

/-- The state after one call: `processReceivedBuffer`, `deleteIdle`, `sendPacket` or
`SetUserData`. -/
def step (Parse : Bytes → ProtocolVersion × Packet)
    (Serialize : Packet → ProtocolVersion → Option Bytes) (env : PeerEnv) : Event → PeerEnv
  | Event.received cur_time_ms from_ buffer =>
    processReceivedBuffer Parse env cur_time_ms from_ buffer
  | Event.idle cur_time_ms => deleteIdle env cur_time_ms
  | Event.send under_lock protocol_version packet_type =>
    (sendPacket Serialize env under_lock protocol_version packet_type).1
  | Event.user_data user_data => env.SetUserData user_data

/-- The state after a sequence of calls. -/
def run (Parse : Bytes → ProtocolVersion × Packet)
    (Serialize : Packet → ProtocolVersion → Option Bytes) (env : PeerEnv) :
    List Event → PeerEnv
  | [] => env
  | ev :: evs => run Parse Serialize (step Parse Serialize env ev) evs

/-- The packets built by `sendPacket` during a sequence of calls, in order. -/
def built (Parse : Bytes → ProtocolVersion × Packet)
    (Serialize : Packet → ProtocolVersion → Option Bytes) (env : PeerEnv) :
    List Event → List Packet
  | [] => []
  | Event.send under_lock protocol_version packet_type :: evs =>
    (sendPacket Serialize env under_lock protocol_version packet_type).2.1 ::
      built Parse Serialize
        (step Parse Serialize env (Event.send under_lock protocol_version packet_type)) evs
  | ev :: evs => built Parse Serialize (step Parse Serialize env ev) evs

/-! ## Endpoint comparison (`discovery_ip_port.h`, lines 20-28) -/

/-- `IpPort::operator==`. -/
def IpPort.operator_eq (self other : IpPort) : Bool :=
  self.ip == other.ip && self.port == other.port

/-- `IpPort::operator!=`. -/
def IpPort.operator_ne (self other : IpPort) : Bool :=
  !(self.operator_eq other)

/-- `IpPort::operator<`. -/
def IpPort.operator_lt (self other : IpPort) : Bool :=
  if self.ip < other.ip then true
  else if self.ip > other.ip then false
  else decide (self.port < other.port)

/-! ## Scheduling of the sending thread (`discovery_peer.cpp`, lines 64-78 and 212-256) -/

/-- `IsRightTime`: the returned flag together with the value left in `time_to_wait_out`
(assigned on every path). -/
def IsRightTime (last_action_time now_time timeout : Int) : Bool × Int :=
  if last_action_time == 0 then
    (true, timeout)
  else
    let time_passed := now_time - last_action_time
    if time_passed >= timeout then
      (true, timeout - (time_passed - timeout))
    else
      (false, timeout - time_passed)

/-- The loop `for (int protocol_version = min; protocol_version <= max; ++protocol_version)
sendPacket(under_lock, protocol_version, packet_type)` of `SendingThreadFunc`: the state
left behind and the datagrams handed to `sendto`, in order. -/
def sendPacket_each_version (Serialize : Packet → ProtocolVersion → Option Bytes)
    (env : PeerEnv) (under_lock : Bool) (packet_type : PacketType) :
    PeerEnv × List (IpPort × Bytes) :=
  (List.range' env.parameters_.min_supported_protocol_version
      (env.parameters_.max_supported_protocol_version + 1 -
        env.parameters_.min_supported_protocol_version)).foldl
    (fun acc protocol_version =>
      let r := sendPacket Serialize acc.1 under_lock protocol_version packet_type
      (r.1, acc.2 ++ r.2.2.toList))
    (env, [])

/-- The locals of `SendingThreadFunc` that survive an iteration. -/
structure SendingThreadLocals where
  last_send_time_ms : Int := 0
  last_delete_idle_ms : Int := 0
deriving DecidableEq, Repr

/-- What one iteration of the loop of `SendingThreadFunc` does: the state and locals it
leaves, the datagrams it sent, and the duration it passes to `SleepFor` (`none` when the
iteration found `exit_` set, sent the farewell packets and returned). -/
structure SendingThreadIteration where
  env : PeerEnv
  locals : SendingThreadLocals
  sent : List (IpPort × Bytes)
  to_sleep_ms : Option Int
deriving DecidableEq, Repr

/-- One iteration of the `while (true)` loop of `PeerEnv::SendingThreadFunc`, with the value
`cur_time_ms` that `NowTime()` returns in it. -/
def SendingThreadFunc_iteration (Serialize : Packet → ProtocolVersion → Option Bytes)
    (env : PeerEnv) (locals : SendingThreadLocals) (cur_time_ms : Int) :
    SendingThreadIteration :=
  if env.exit_ then
    let r := sendPacket_each_version Serialize env true kPacketIAmOutOfHere
    { env := r.1, locals := locals, sent := r.2, to_sleep_ms := none }
  else
    let to_sleep_ms : Int := 0
    let after_send : PeerEnv × SendingThreadLocals × List (IpPort × Bytes) × Int :=
      if env.parameters_.can_be_discovered then
        let right_time :=
          IsRightTime locals.last_send_time_ms cur_time_ms env.parameters_.send_timeout_ms
        if right_time.1 then
          let r := sendPacket_each_version Serialize env false kPacketIAmHere
          (r.1, { locals with last_send_time_ms := cur_time_ms }, r.2, right_time.2)
        else
          (env, locals, [], right_time.2)
      else
        (env, locals, [], to_sleep_ms)
    let env := after_send.1
    let locals := after_send.2.1
    let sent := after_send.2.2.1
    let to_sleep_ms := after_send.2.2.2
    if env.parameters_.can_discover then
      let right_time :=
        IsRightTime locals.last_delete_idle_ms cur_time_ms
          env.parameters_.discovered_peer_ttl_ms
      let to_sleep_until_next_delete_idle := right_time.2
      let after_idle : PeerEnv × SendingThreadLocals :=
        if right_time.1 then
          (deleteIdle env cur_time_ms, { locals with last_delete_idle_ms := cur_time_ms })
        else
          (env, locals)
      let to_sleep_ms :=
        if to_sleep_ms > to_sleep_until_next_delete_idle then to_sleep_until_next_delete_idle
        else to_sleep_ms
      { env := after_idle.1, locals := after_idle.2, sent := sent,
        to_sleep_ms := some to_sleep_ms }
    else
      { env := env, locals := locals, sent := sent, to_sleep_ms := some to_sleep_ms }

/-! ## Start and stop (`discovery_peer.cpp`, lines 117-195 and 402-469) -/

/-- What the operating system and the random generator answer during one
`PeerEnv::Start`: the value of `MakeRandomId()`, the descriptors returned by the first and
the second `socket(AF_INET, SOCK_DGRAM, 0)`, and the result of `bind`. -/
structure StartAnswers where
  random_id : Nat
  first_socket : Int
  second_socket : Int
  bind_result : Int
deriving DecidableEq, Repr

/-- The effects of `PeerEnv::Start` on the outside world, in order. -/
inductive StartEffect where
  | cerr
  | socket (result : Int)
  | setsockopt (sock : Int)
  | bind (sock : Int) (port : Nat)
  | close (sock : Int)
deriving DecidableEq, Repr

/-- `PeerEnv::Start` (POSIX branch, where `InitSockets` does nothing): the returned flag,
the state left behind and the effects performed. -/
def PeerEnv.Start (os : StartAnswers) (env : PeerEnv) (parameters : PeerParameters)
    (user_data : Bytes) : Bool × PeerEnv × List StartEffect :=
  let env := { env with parameters_ := parameters, user_data_ := user_data }
  if !env.parameters_.can_use_broadcast && !env.parameters_.can_use_multicast then
    (false, env, [StartEffect.cerr])
  else if !env.parameters_.can_discover && !env.parameters_.can_be_discovered then
    (false, env, [StartEffect.cerr])
  else
    let env := { env with peer_id_ := os.random_id }
    let env := { env with sock_ := os.first_socket }
    let effects := [StartEffect.socket os.first_socket]
    if env.sock_ == kInvalidSocket then
      (false, env, effects ++ [StartEffect.cerr])
    else
      let effects := effects ++ [StartEffect.setsockopt env.sock_]
      if env.parameters_.can_discover then
        let env := { env with binding_sock_ := os.second_socket }
        let effects := effects ++ [StartEffect.socket os.second_socket]
        if env.binding_sock_ == kInvalidSocket then
          (false, { env with sock_ := kInvalidSocket },
            effects ++ [StartEffect.cerr, StartEffect.close env.sock_])
        else
          let effects :=
            effects ++ [StartEffect.setsockopt env.binding_sock_,
              StartEffect.setsockopt env.binding_sock_]
          let effects :=
            if env.parameters_.can_use_multicast then
              effects ++ [StartEffect.setsockopt env.binding_sock_]
            else effects
          let effects := effects ++ [StartEffect.bind env.binding_sock_ env.parameters_.port]
          if os.bind_result < 0 then
            (false, { env with binding_sock_ := kInvalidSocket, sock_ := kInvalidSocket },
              effects ++ [StartEffect.close env.binding_sock_, StartEffect.close env.sock_,
                StartEffect.cerr])
          else
            (true, env, effects ++ [StartEffect.setsockopt env.binding_sock_])
      else
        (true, env, effects)

/-- `PeerEnv::ListDiscovered`. -/
def PeerEnv.ListDiscovered (env : PeerEnv) : List DiscoveredPeer :=
  env.discovered_peers_

/-- `PeerEnv::Exit`. -/
def PeerEnv.Exit (env : PeerEnv) : PeerEnv :=
  { env with exit_ := true }

/-- The data members of `Peer`: the environment it shares with its threads (if any) and
whether each `unique_ptr<std::thread>` holds a thread. -/
structure Peer where
  env_ : Option PeerEnv := none
  sending_thread_ : Bool := false
  receiving_thread_ : Bool := false
deriving DecidableEq, Repr

/-- `Peer::Stop(bool)`: the peer afterwards, and the environment (with `exit_` set) that the
threads of the stopped run still hold; joining or detaching leaves the same `Peer`. -/
def Peer.Stop (peer : Peer) (wait_for_threads : Bool) : Peer × Option PeerEnv :=
  match peer.env_ with
  | none => (peer, none)
  | some env =>
    let released := env.Exit
    let peer := { peer with env_ := none }
    let peer :=
      if wait_for_threads then peer
      else peer
    ({ peer with sending_thread_ := false, receiving_thread_ := false }, some released)

/-- `Peer::Start`: the returned flag, the peer afterwards and the effects of the
`PeerEnv::Start` it ran on a fresh environment. -/
def Peer.Start (os : StartAnswers) (peer : Peer) (parameters : PeerParameters)
    (user_data : Bytes) : Bool × Peer × List StartEffect :=
  let peer := (peer.Stop false).1
  let env : PeerEnv := {}
  let started := env.Start os parameters user_data
  if !started.1 then
    (false, peer, started.2.2)
  else
    let peer := { peer with env_ := some started.2.1 }
    let peer := { peer with sending_thread_ := true }
    let peer :=
      if parameters.can_discover then { peer with receiving_thread_ := true }
      else peer
    (true, peer, started.2.2)

/-- `Peer::ListDiscovered`. -/
def Peer.ListDiscovered (peer : Peer) : List DiscoveredPeer :=
  match peer.env_ with
  | some env => env.ListDiscovered
  | none => []

/-- One call of the public interface that changes a `Peer`, with its arguments (and, for
`Start`, the answers of the operating system during it). -/
inductive PeerCall where
  | Start (os : StartAnswers) (parameters : PeerParameters) (user_data : Bytes)
  | Stop (wait_for_threads : Bool)
deriving DecidableEq, Repr

/-- The `Peer` after one call. -/
def Peer.call (peer : Peer) : PeerCall → Peer
  | PeerCall.Start os parameters user_data => (peer.Start os parameters user_data).2.1
  | PeerCall.Stop wait_for_threads => (peer.Stop wait_for_threads).1

/-- The `Peer` that a sequence of calls makes of a newly constructed one. -/
def Peer.after (calls : List PeerCall) : Peer :=
  calls.foldl Peer.call {}

/-! ## Vocabulary of the statements -/

/-- Admission of a parsed packet, in the words of the specification: the version is not
Unknown and lies in the supported range, the application id is the configured one, and the
packet is not one of our own unless `discover_self` is set. -/
def Accepted (env : PeerEnv) (version : ProtocolVersion) (packet : Packet) : Prop :=
  version ≠ kProtocolVersionUnknown ∧
  env.parameters_.min_supported_protocol_version ≤ version ∧
  version ≤ env.parameters_.max_supported_protocol_version ∧
  packet.application_id = env.parameters_.application_id ∧
  (env.parameters_.discover_self = false → packet.peer_id ≠ env.peer_id_)

instance (env : PeerEnv) (version : ProtocolVersion) (packet : Packet) :
    Decidable (Accepted env version packet) := by
  unfold Accepted
  infer_instance

/-- At most one entry per same-peer identity: no two entries at distinct positions of the
table have endpoints that are `Same` under `mode`. -/
def OnePerIdentity (mode : SamePeerMode) (table : List DiscoveredPeer) : Prop :=
  table.Pairwise (fun a b => Same mode a.ip_port b.ip_port = false)

/-- The entry that stands for the identity of `id0`: the first entry of the table whose
endpoint is `Same` as `id0`, which is the one `find_if` reaches. -/
def entry_for (mode : SamePeerMode) (id0 : IpPort) (table : List DiscoveredPeer) :
    Option DiscoveredPeer :=
  table.find? (fun peer => Same mode peer.ip_port id0)

/-- The packets of the identity of `id0` that the receiver takes in during an execution,
in order of arrival: those parsed from the buffers that arrive from an endpoint `Same` as
`id0`, are accepted and are IAmHere packets.  Buffers from that identity which are dropped
(unknown or unsupported version, other application, own packet) or carry another type
contribute nothing.  Admission is decided with the configuration and the session id of
`env`, which no call changes. -/
def packets_from (Parse : Bytes → ProtocolVersion × Packet) (env : PeerEnv)
    (id0 : IpPort) : List Event → List Packet
  | [] => []
  | Event.received _ from_ buffer :: evs =>
    if Same env.parameters_.same_peer_mode from_ id0 = true ∧
        Accepted env (Parse buffer).1 (Parse buffer).2 ∧
        (Parse buffer).2.packet_type = kPacketIAmHere then
      (Parse buffer).2 :: packets_from Parse env id0 evs
    else packets_from Parse env id0 evs
  | _ :: evs => packets_from Parse env id0 evs

/-- No removal and no eviction of the entry of `id0` during the execution: whenever
`deleteIdle` runs, the entry of `id0`, if there is one at that moment, is within the TTL;
and whenever an accepted IAmOutOfHere arrives from the identity of `id0`, there is no entry
of `id0` at that moment.  Every other call is unconstrained. -/
def never_removed (Parse : Bytes → ProtocolVersion × Packet)
    (Serialize : Packet → ProtocolVersion → Option Bytes) (id0 : IpPort) :
    PeerEnv → List Event → Bool
  | _, [] => true
  | env, ev :: evs =>
    (match ev with
      | Event.idle cur_time_ms =>
        match entry_for env.parameters_.same_peer_mode id0 env.discovered_peers_ with
        | some e =>
          decide (cur_time_ms - e.last_updated ≤ env.parameters_.discovered_peer_ttl_ms)
        | none => true
      | Event.received _ from_ buffer =>
        if Same env.parameters_.same_peer_mode from_ id0 = true ∧
            Accepted env (Parse buffer).1 (Parse buffer).2 ∧
            (Parse buffer).2.packet_type = kPacketIAmOutOfHere then
          (entry_for env.parameters_.same_peer_mode id0 env.discovered_peers_).isNone
        else true
      | _ => true) &&
    never_removed Parse Serialize id0 (step Parse Serialize env ev) evs

/-- Entry `e` records the earliest packet of `ps` that carries the greatest snapshot index:
`ps` splits around a packet `q` with every earlier index strictly smaller and every later
index not greater, and `e` holds the index and the user data of `q`. -/
def RecordsHighest (e : DiscoveredPeer) (ps : List Packet) : Prop :=
  ∃ pre q post, ps = pre ++ q :: post ∧
    (∀ x ∈ pre, x.snapshot_index < q.snapshot_index) ∧
    (∀ x ∈ post, x.snapshot_index ≤ q.snapshot_index) ∧
    e.last_received_packet = q.snapshot_index ∧ e.user_data = q.user_data

/-- The number that a sequence of bytes denotes when read big-endian, most significant
byte first (each byte taken as a `uint8_t`). -/
def big_endian_value (bytes : Bytes) : Nat :=
  bytes.foldl (fun acc c => acc * 256 + c % 256) 0

/-- The `n` bytes of `v` from the most significant one down: byte `i` is
`(v >> 8 * (n - 1 - i)) & 0xff`. -/
def big_endian_bytes (n v : Nat) : Bytes :=
  (List.range n).map (fun i => (v >>> (8 * (n - 1 - i))) &&& 0xff)

/-- What the table knows of `id0` once the packets `ps` of that identity have been
processed: no entry while there was no packet, afterwards an entry that records the
earliest packet with the greatest snapshot index. -/
def Tracks (mode : SamePeerMode) (id0 : IpPort) (table : List DiscoveredPeer)
    (ps : List Packet) : Prop :=
  (ps = [] ∧ entry_for mode id0 table = none) ∨
  ∃ e, entry_for mode id0 table = some e ∧ RecordsHighest e ps

/-! ## Sample data for the instantiations -/

/-- A receiver configured for application 7 (protocol V1 only, identity by ip and port),
already tracking two peers. -/
def sampleEnv : PeerEnv :=
  { parameters_ := { application_id := 7, can_discover := true },
    peer_id_ := 1234,
    discovered_peers_ :=
      [{ ip_port := { ip := 167772161, port := 5000 }, user_data := [97],
         last_received_packet := 5, last_updated := 100 },
       { ip_port := { ip := 167772162, port := 5000 }, user_data := [98],
         last_received_packet := 2, last_updated := 200 }] }

/-- A V1 IAmHere datagram: application 7, peer id 9, snapshot index 3, user data "hi". -/
def sampleIAmHere : Bytes :=
  [1, 0, 0, 0, 0, 7, 0, 0, 0, 9, 0, 0, 0, 0, 0, 0, 0, 3, 0, 2, 104, 105]

/-- A V1 IAmOutOfHere datagram: application 7, peer id 9, snapshot index 4, no user data. -/
def sampleIAmOutOfHere : Bytes :=
  [1, 1, 0, 0, 0, 7, 0, 0, 0, 9, 0, 0, 0, 0, 0, 0, 0, 4, 0, 0]

/-- The datagram `sampleIAmHere` with peer id 10 in place of 9. -/
def sampleIAmHereOtherId : Bytes :=
  [1, 0, 0, 0, 0, 7, 0, 0, 0, 10, 0, 0, 0, 0, 0, 0, 0, 3, 0, 2, 104, 105]

/-- A V1 IAmHere datagram of another application (id 8). -/
def sampleForeignApp : Bytes :=
  [1, 0, 0, 0, 0, 8, 0, 0, 0, 9, 0, 0, 0, 0, 0, 0, 0, 3, 0, 2, 104, 105]

/-- A freshly started peer of application 7 that both announces itself and listens:
empty table, packet counter at zero. -/
def sampleFresh : PeerEnv :=
  { parameters_ := { application_id := 7, can_discover := true, can_be_discovered := true },
    peer_id_ := 1234 }

/-- An execution of `sampleFresh`: announcements of two remote peers arrive, interleaved
with our own announcements, a change of user data, an eviction sweep and a farewell. -/
def sampleExecution : List Event :=
  [Event.send false 1 0,
   Event.received 10 { ip := 167772161, port := 5000 } sampleIAmHere,
   Event.received 20 { ip := 167772162, port := 5000 } sampleIAmHere,
   Event.user_data [120],
   Event.send false 1 0,
   Event.received 30 { ip := 167772161, port := 5000 } sampleIAmHere,
   Event.idle 10015,
   Event.received 10020 { ip := 167772162, port := 6000 } sampleIAmHere,
   Event.received 10030 { ip := 167772162, port := 6000 } sampleIAmOutOfHere,
   Event.send true 1 1]

/-- A V1 IAmHere datagram: application 7, peer id 9, snapshot index 5, user data "yo". -/
def sampleIAmHere5 : Bytes :=
  [1, 0, 0, 0, 0, 7, 0, 0, 0, 9, 0, 0, 0, 0, 0, 0, 0, 5, 0, 2, 121, 111]

/-- A V1 IAmHere datagram: application 7, peer id 9, snapshot index 4, user data "zz". -/
def sampleIAmHere4 : Bytes :=
  [1, 0, 0, 0, 0, 7, 0, 0, 0, 9, 0, 0, 0, 0, 0, 0, 0, 4, 0, 2, 122, 122]

/-- A V0 IAmHere datagram: application 7, peer id 9, snapshot index 9, user data "qq", no
padding.  A receiver that supports V1 only drops it. -/
def sampleIAmHereV0 : Bytes :=
  [0, 0, 0, 0, 0, 7, 0, 0, 0, 9, 0, 0, 0, 0, 0, 0, 0, 9, 0, 0, 0, 2, 113, 113, 0, 0, 0, 0]

/-- An execution of `sampleFresh` in which the peer at 10.0.0.1:5000 is heard with the
snapshot indices 3, 5, 4 and 3 (out of order and with a repetition).  In between the same
endpoint also delivers a farewell before it has an entry, V0 datagrams with index 9 and a
datagram of another application, all of which the receiver drops or ignores; another peer
comes and goes, a sweep runs and we keep announcing ourselves. -/
def sampleReordered : List Event :=
  [Event.received 5 { ip := 167772161, port := 5000 } sampleIAmOutOfHere,
   Event.received 10 { ip := 167772162, port := 5000 } sampleIAmHere,
   Event.received 19 { ip := 167772161, port := 5000 } sampleIAmHereV0,
   Event.received 20 { ip := 167772161, port := 5000 } sampleIAmHere,
   Event.send false 1 0,
   Event.received 5000 { ip := 167772161, port := 5000 } sampleIAmHere5,
   Event.received 5005 { ip := 167772161, port := 5000 } sampleForeignApp,
   Event.received 5010 { ip := 167772162, port := 5000 } sampleIAmOutOfHere,
   Event.idle 10020,
   Event.received 10030 { ip := 167772161, port := 5000 } sampleIAmHere4,
   Event.received 10035 { ip := 167772161, port := 5000 } sampleIAmHereV0,
   Event.received 10040 { ip := 167772161, port := 5000 } sampleIAmHere]

/-- A freshly started peer of application 7 that only listens (`can_discover` set,
`can_be_discovered` left at its default `false`), with the default periods of 5000 ms and
10000 ms. -/
def sampleListener : PeerEnv :=
  { parameters_ := { application_id := 7, can_discover := true }, peer_id_ := 1234,
    sock_ := 3, binding_sock_ := 4 }

/-- Answers of an operating system that hands out the descriptors 3 and 4 and lets `bind`
succeed. -/
def sampleAnswers : StartAnswers :=
  { random_id := 1234, first_socket := 3, second_socket := 4, bind_result := 0 }

/-! ## Lemmas on the list primitives -/

theorem find_if_le_length {α : Type} (p : α → Bool) (l : List α) :
    find_if p l ≤ l.length := by
  induction l with
  | nil => simp [find_if]
  | cons x xs ih =>
    by_cases hx : p x <;> simp [find_if, hx]
    exact ih

theorem find_if_eq_length_iff {α : Type} (p : α → Bool) (l : List α) :
    find_if p l = l.length ↔ ∀ x ∈ l, p x = false := by
  induction l with
  | nil => simp [find_if]
  | cons x xs ih =>
    by_cases hx : p x <;> simp [find_if, hx, ih]

theorem find_if_append_cons {α : Type} (p : α → Bool) (l1 : List α) (e : α) (l2 : List α)
    (hfirst : ∀ x ∈ l1, p x = false) (he : p e = true) :
    find_if p (l1 ++ e :: l2) = l1.length := by
  induction l1 with
  | nil => simp [find_if, he]
  | cons x xs ih =>
    have hx : p x = false := hfirst x (by simp)
    have hxs : ∀ y ∈ xs, p y = false := fun y hy => hfirst y (by simp [hy])
    simp [find_if, hx, ih hxs]

theorem find_if_split {α : Type} (p : α → Bool) (l : List α)
    (h : find_if p l ≠ l.length) :
    ∃ l1 e l2, l = l1 ++ e :: l2 ∧ (∀ x ∈ l1, p x = false) ∧ p e = true := by
  induction l with
  | nil => simp [find_if] at h
  | cons x xs ih =>
    by_cases hx : p x
    · exact ⟨[], x, xs, by simp, by simp, hx⟩
    · have hne : find_if p xs ≠ xs.length := by
        intro hxs
        apply h
        simp [find_if, hx, hxs]
      obtain ⟨l1, e, l2, hl, hfirst, he⟩ := ih hne
      refine ⟨x :: l1, e, l2, by simp [hl], ?_, he⟩
      intro y hy
      rcases List.mem_cons.mp hy with rfl | hy
      · simpa using hx
      · exact hfirst y hy

theorem assign_at_append_cons {α : Type} (f : α → α) (l1 : List α) (e : α) (l2 : List α) :
    assign_at f (l1 ++ e :: l2) l1.length = l1 ++ f e :: l2 := by
  induction l1 with
  | nil => simp [assign_at]
  | cons x xs ih => simp [assign_at, ih]

theorem erase_append_cons {α : Type} (l1 : List α) (e : α) (l2 : List α) :
    erase (l1 ++ e :: l2) l1.length = l1 ++ l2 := by
  induction l1 with
  | nil => simp [erase]
  | cons x xs ih => simp [erase, ih]

/-! ## Lemmas on `Same` -/

theorem Same_refl (mode : SamePeerMode) (a : IpPort) : Same mode a a = true := by
  cases mode <;> simp [Same]

theorem Same_symm (mode : SamePeerMode) (a b : IpPort) : Same mode a b = Same mode b a := by
  rw [Bool.eq_iff_iff]
  cases mode <;> simp only [Same, Bool.and_eq_true, beq_iff_eq] <;> constructor <;>
    intro h <;> simp [h]

theorem Same_trans (mode : SamePeerMode) (a b c : IpPort)
    (hab : Same mode a b = true) (hbc : Same mode b c = true) : Same mode a c = true := by
  cases mode <;> simp_all [Same]

/-- Endpoints that are `Same` match the same entries. -/
theorem Same_congr_right (mode : SamePeerMode) (a b c : IpPort)
    (hbc : Same mode b c = true) : Same mode a b = Same mode a c := by
  cases h : Same mode a c
  · cases h2 : Same mode a b
    · rfl
    · rw [Same_trans mode a b c h2 hbc] at h
      exact h
  · rw [Same_symm mode b c] at hbc
    exact Same_trans mode a c b h hbc

/-! ## Lemmas on `processReceivedBuffer` -/

/-- The admission test of the source evaluates to the table update exactly on accepted
packets; a rejected packet leaves the whole state alone. -/
theorem processReceivedBuffer_rejected (Parse : Bytes → ProtocolVersion × Packet)
    (env : PeerEnv) (cur_time_ms : Int) (from_ : IpPort) (buffer : Bytes)
    (h : ¬ Accepted env (Parse buffer).1 (Parse buffer).2) :
    processReceivedBuffer Parse env cur_time_ms from_ buffer = env := by
  unfold Accepted at h
  unfold processReceivedBuffer
  simp only []
  split_ifs <;> simp_all

/-- An accepted IAmHere from an endpoint without an entry appends one entry. -/
theorem processReceivedBuffer_iamhere_new (Parse : Bytes → ProtocolVersion × Packet)
    (env : PeerEnv) (cur_time_ms : Int) (from_ : IpPort) (buffer : Bytes)
    (hacc : Accepted env (Parse buffer).1 (Parse buffer).2)
    (htype : (Parse buffer).2.packet_type = kPacketIAmHere)
    (hnone : ∀ x ∈ env.discovered_peers_,
      Same env.parameters_.same_peer_mode x.ip_port from_ = false) :
    processReceivedBuffer Parse env cur_time_ms from_ buffer =
      { env with discovered_peers_ := env.discovered_peers_ ++
          [{ ip_port := from_, user_data := (Parse buffer).2.user_data,
             last_received_packet := (Parse buffer).2.snapshot_index,
             last_updated := cur_time_ms }] } := by
  obtain ⟨h1, h2, h3, h4, h5⟩ := hacc
  have hfind := (find_if_eq_length_iff
    (fun peer => Same env.parameters_.same_peer_mode peer.ip_port from_)
    env.discovered_peers_).mpr hnone
  unfold processReceivedBuffer
  simp only [htype, hfind]
  by_cases hself : env.parameters_.discover_self = true
  · simp [h1, h2, h3, h4, hself, DiscoveredPeer.set_ip_port, DiscoveredPeer.SetUserData,
      DiscoveredPeer.set_last_updated]
  · have hself2 : env.parameters_.discover_self = false := by simpa using hself
    have h6 := h5 hself2
    simp [h1, h2, h3, h4, hself2, h6, DiscoveredPeer.set_ip_port,
      DiscoveredPeer.SetUserData, DiscoveredPeer.set_last_updated]

/-- An accepted IAmHere from an endpoint with an entry refreshes the first such entry. -/
theorem processReceivedBuffer_iamhere_existing (Parse : Bytes → ProtocolVersion × Packet)
    (env : PeerEnv) (cur_time_ms : Int) (from_ : IpPort) (buffer : Bytes)
    (l1 : List DiscoveredPeer) (e : DiscoveredPeer) (l2 : List DiscoveredPeer)
    (hacc : Accepted env (Parse buffer).1 (Parse buffer).2)
    (htype : (Parse buffer).2.packet_type = kPacketIAmHere)
    (htable : env.discovered_peers_ = l1 ++ e :: l2)
    (hfirst : ∀ x ∈ l1, Same env.parameters_.same_peer_mode x.ip_port from_ = false)
    (hmatch : Same env.parameters_.same_peer_mode e.ip_port from_ = true) :
    processReceivedBuffer Parse env cur_time_ms from_ buffer =
      { env with discovered_peers_ := l1 ++
          { ip_port := e.ip_port,
            user_data :=
              if e.last_received_packet < (Parse buffer).2.snapshot_index then
                (Parse buffer).2.user_data
              else e.user_data,
            last_received_packet :=
              if e.last_received_packet < (Parse buffer).2.snapshot_index then
                (Parse buffer).2.snapshot_index
              else e.last_received_packet,
            last_updated := cur_time_ms } :: l2 } := by
  obtain ⟨h1, h2, h3, h4, h5⟩ := hacc
  have hfind := find_if_append_cons
    (fun peer => Same env.parameters_.same_peer_mode peer.ip_port from_) l1 e l2 hfirst hmatch
  unfold processReceivedBuffer
  simp only [htype, htable, hfind, assign_at_append_cons]
  have hlen : ¬ (l1.length = (l1 ++ e :: l2).length) := by simp
  by_cases hlt : e.last_received_packet < (Parse buffer).2.snapshot_index
  · by_cases hself : env.parameters_.discover_self = true
    · simp [h1, h2, h3, h4, hself, hlt, DiscoveredPeer.SetUserData,
        DiscoveredPeer.set_last_updated]
    · have hself2 : env.parameters_.discover_self = false := by simpa using hself
      have h6 := h5 hself2
      simp [h1, h2, h3, h4, hself2, h6, hlt, DiscoveredPeer.SetUserData,
        DiscoveredPeer.set_last_updated]
  · by_cases hself : env.parameters_.discover_self = true
    · simp [h1, h2, h3, h4, hself, hlt, DiscoveredPeer.SetUserData,
        DiscoveredPeer.set_last_updated]
    · have hself2 : env.parameters_.discover_self = false := by simpa using hself
      have h6 := h5 hself2
      simp [h1, h2, h3, h4, hself2, h6, hlt, DiscoveredPeer.SetUserData,
        DiscoveredPeer.set_last_updated]

/-- An accepted IAmOutOfHere from an endpoint with an entry erases the first such entry. -/
theorem processReceivedBuffer_iamoutofhere_existing
    (Parse : Bytes → ProtocolVersion × Packet)
    (env : PeerEnv) (cur_time_ms : Int) (from_ : IpPort) (buffer : Bytes)
    (l1 : List DiscoveredPeer) (e : DiscoveredPeer) (l2 : List DiscoveredPeer)
    (hacc : Accepted env (Parse buffer).1 (Parse buffer).2)
    (htype : (Parse buffer).2.packet_type = kPacketIAmOutOfHere)
    (htable : env.discovered_peers_ = l1 ++ e :: l2)
    (hfirst : ∀ x ∈ l1, Same env.parameters_.same_peer_mode x.ip_port from_ = false)
    (hmatch : Same env.parameters_.same_peer_mode e.ip_port from_ = true) :
    processReceivedBuffer Parse env cur_time_ms from_ buffer =
      { env with discovered_peers_ := l1 ++ l2 } := by
  obtain ⟨h1, h2, h3, h4, h5⟩ := hacc
  have hfind := find_if_append_cons
    (fun peer => Same env.parameters_.same_peer_mode peer.ip_port from_) l1 e l2 hfirst hmatch
  unfold processReceivedBuffer
  simp only [htype, htable, hfind, erase_append_cons]
  by_cases hself : env.parameters_.discover_self = true
  · simp [h1, h2, h3, h4, hself, kPacketIAmOutOfHere, kPacketIAmHere]
  · have hself2 : env.parameters_.discover_self = false := by simpa using hself
    have h6 := h5 hself2
    simp [h1, h2, h3, h4, hself2, h6, kPacketIAmOutOfHere, kPacketIAmHere]

/-- A packet that is not an IAmHere never changes the state when its source endpoint has no
entry. -/
theorem processReceivedBuffer_not_iamhere_absent (Parse : Bytes → ProtocolVersion × Packet)
    (env : PeerEnv) (cur_time_ms : Int) (from_ : IpPort) (buffer : Bytes)
    (htype : (Parse buffer).2.packet_type ≠ kPacketIAmHere)
    (hnone : ∀ x ∈ env.discovered_peers_,
      Same env.parameters_.same_peer_mode x.ip_port from_ = false) :
    processReceivedBuffer Parse env cur_time_ms from_ buffer = env := by
  have hfind := (find_if_eq_length_iff
    (fun peer => Same env.parameters_.same_peer_mode peer.ip_port from_)
    env.discovered_peers_).mpr hnone
  unfold processReceivedBuffer
  simp only [hfind]
  split_ifs <;> simp_all

/-- A packet whose type byte is neither IAmHere nor IAmOutOfHere never changes the state. -/
theorem processReceivedBuffer_other_type (Parse : Bytes → ProtocolVersion × Packet)
    (env : PeerEnv) (cur_time_ms : Int) (from_ : IpPort) (buffer : Bytes)
    (h0 : (Parse buffer).2.packet_type ≠ kPacketIAmHere)
    (h1 : (Parse buffer).2.packet_type ≠ kPacketIAmOutOfHere) :
    processReceivedBuffer Parse env cur_time_ms from_ buffer = env := by
  unfold processReceivedBuffer
  simp only []
  split_ifs <;> simp_all

/-- If some element satisfies `p`, the list splits at the first such element. -/
theorem find_if_split_of_exists {α : Type} (p : α → Bool) (l : List α)
    (h : ∃ x ∈ l, p x = true) :
    ∃ l1 e l2, l = l1 ++ e :: l2 ∧ (∀ x ∈ l1, p x = false) ∧ p e = true := by
  apply find_if_split
  intro hlen
  obtain ⟨x, hx, hpx⟩ := h
  have := (find_if_eq_length_iff p l).mp hlen x hx
  rw [hpx] at this
  exact Bool.noConfusion this

/-- In a table with one entry per identity, nothing behind the first match of `from_`
matches `from_`. -/
theorem OnePerIdentity_no_match_after_erase (mode : SamePeerMode) (from_ : IpPort)
    (l1 : List DiscoveredPeer) (e : DiscoveredPeer) (l2 : List DiscoveredPeer)
    (hinv : OnePerIdentity mode (l1 ++ e :: l2))
    (hfirst : ∀ x ∈ l1, Same mode x.ip_port from_ = false)
    (hmatch : Same mode e.ip_port from_ = true) :
    ∀ x ∈ l1 ++ l2, Same mode x.ip_port from_ = false := by
  intro x hx
  rcases List.mem_append.mp hx with hx | hx
  · exact hfirst x hx
  · unfold OnePerIdentity at hinv
    have h2 := (List.pairwise_append.mp hinv).2.1
    have h3 := (List.pairwise_cons.mp h2).1 x hx
    rw [Same_congr_right mode x.ip_port from_ e.ip_port
      (by rw [Same_symm]; exact hmatch), Same_symm]
    exact h3

/-! ## Lemmas on serial executions -/

/-- `processReceivedBuffer` writes the table and nothing else. -/
theorem processReceivedBuffer_frame (Parse : Bytes → ProtocolVersion × Packet)
    (env : PeerEnv) (cur_time_ms : Int) (from_ : IpPort) (buffer : Bytes) :
    processReceivedBuffer Parse env cur_time_ms from_ buffer =
      { env with discovered_peers_ :=
          (processReceivedBuffer Parse env cur_time_ms from_ buffer).discovered_peers_ } := by
  unfold processReceivedBuffer
  simp only []
  split_ifs <;> rfl

/-- No call changes the configuration. -/
theorem step_parameters (Parse : Bytes → ProtocolVersion × Packet)
    (Serialize : Packet → ProtocolVersion → Option Bytes) (env : PeerEnv) (ev : Event) :
    (step Parse Serialize env ev).parameters_ = env.parameters_ := by
  cases ev with
  | received now from_ buffer =>
    simp only [step]
    rw [processReceivedBuffer_frame]
  | idle now => rfl
  | send under_lock protocol_version packet_type =>
    simp only [step, sendPacket]
    split <;> rfl
  | user_data user_data => rfl

/-- No call changes the session id. -/
theorem step_peer_id (Parse : Bytes → ProtocolVersion × Packet)
    (Serialize : Packet → ProtocolVersion → Option Bytes) (env : PeerEnv) (ev : Event) :
    (step Parse Serialize env ev).peer_id_ = env.peer_id_ := by
  cases ev with
  | received now from_ buffer =>
    simp only [step]
    rw [processReceivedBuffer_frame]
  | idle now => rfl
  | send under_lock protocol_version packet_type =>
    simp only [step, sendPacket]
    split <;> rfl
  | user_data user_data => rfl

theorem run_parameters (Parse : Bytes → ProtocolVersion × Packet)
    (Serialize : Packet → ProtocolVersion → Option Bytes) (evs : List Event) :
    ∀ env : PeerEnv, (run Parse Serialize env evs).parameters_ = env.parameters_ := by
  induction evs with
  | nil => intro env; rfl
  | cons ev evs ih =>
    intro env
    simp only [run]
    rw [ih, step_parameters]

theorem run_peer_id (Parse : Bytes → ProtocolVersion × Packet)
    (Serialize : Packet → ProtocolVersion → Option Bytes) (evs : List Event) :
    ∀ env : PeerEnv, (run Parse Serialize env evs).peer_id_ = env.peer_id_ := by
  induction evs with
  | nil => intro env; rfl
  | cons ev evs ih =>
    intro env
    simp only [run]
    rw [ih, step_peer_id]

theorem run_append (Parse : Bytes → ProtocolVersion × Packet)
    (Serialize : Packet → ProtocolVersion → Option Bytes) (evs1 evs2 : List Event) :
    ∀ env : PeerEnv, run Parse Serialize env (evs1 ++ evs2) =
      run Parse Serialize (run Parse Serialize env evs1) evs2 := by
  induction evs1 with
  | nil => intro env; rfl
  | cons ev evs ih =>
    intro env
    show run Parse Serialize (step Parse Serialize env ev) (evs ++ evs2) = _
    rw [ih]
    rfl

/-- Admission looks at the configuration and the session id only. -/
theorem Accepted_congr (env1 env2 : PeerEnv) (v : ProtocolVersion) (p : Packet)
    (hparams : env1.parameters_ = env2.parameters_) (hid : env1.peer_id_ = env2.peer_id_) :
    Accepted env1 v p ↔ Accepted env2 v p := by
  unfold Accepted
  rw [hparams, hid]

/-- The four ways in which one received buffer can change the table: not at all, by one
entry appended for an endpoint without a match, by the first match rewritten in place with
its endpoint kept, or by the first match erased. -/
theorem processReceivedBuffer_table_cases (Parse : Bytes → ProtocolVersion × Packet)
    (env : PeerEnv) (cur_time_ms : Int) (from_ : IpPort) (buffer : Bytes) :
    (processReceivedBuffer Parse env cur_time_ms from_ buffer).discovered_peers_ =
        env.discovered_peers_ ∨
    (∃ d : DiscoveredPeer,
      (processReceivedBuffer Parse env cur_time_ms from_ buffer).discovered_peers_ =
        env.discovered_peers_ ++ [d] ∧ d.ip_port = from_ ∧
      ∀ x ∈ env.discovered_peers_,
        Same env.parameters_.same_peer_mode x.ip_port from_ = false) ∨
    (∃ l1 e e2 l2, env.discovered_peers_ = l1 ++ e :: l2 ∧
      (processReceivedBuffer Parse env cur_time_ms from_ buffer).discovered_peers_ =
        l1 ++ e2 :: l2 ∧ e2.ip_port = e.ip_port ∧
      Same env.parameters_.same_peer_mode e.ip_port from_ = true) ∨
    (∃ l1 e l2, env.discovered_peers_ = l1 ++ e :: l2 ∧
      (processReceivedBuffer Parse env cur_time_ms from_ buffer).discovered_peers_ =
        l1 ++ l2 ∧
      Same env.parameters_.same_peer_mode e.ip_port from_ = true) := by
  by_cases hacc : Accepted env (Parse buffer).1 (Parse buffer).2
  · by_cases hex : ∃ x ∈ env.discovered_peers_,
        Same env.parameters_.same_peer_mode x.ip_port from_ = true
    · obtain ⟨l1, e, l2, htable, hfirst, hmatch⟩ := find_if_split_of_exists
        (fun peer => Same env.parameters_.same_peer_mode peer.ip_port from_)
        env.discovered_peers_ hex
      by_cases h0 : (Parse buffer).2.packet_type = kPacketIAmHere
      · right; right; left
        rw [processReceivedBuffer_iamhere_existing Parse env cur_time_ms from_ buffer
          l1 e l2 hacc h0 htable hfirst hmatch]
        exact ⟨l1, e, _, l2, htable, rfl, rfl, hmatch⟩
      · by_cases h1 : (Parse buffer).2.packet_type = kPacketIAmOutOfHere
        · right; right; right
          rw [processReceivedBuffer_iamoutofhere_existing Parse env cur_time_ms from_ buffer
            l1 e l2 hacc h1 htable hfirst hmatch]
          exact ⟨l1, e, l2, htable, rfl, hmatch⟩
        · left
          rw [processReceivedBuffer_other_type Parse env cur_time_ms from_ buffer h0 h1]
    · have hnone : ∀ x ∈ env.discovered_peers_,
          Same env.parameters_.same_peer_mode x.ip_port from_ = false := by
        intro x hx
        cases h : Same env.parameters_.same_peer_mode x.ip_port from_
        · rfl
        · exact absurd ⟨x, hx, h⟩ hex
      by_cases h0 : (Parse buffer).2.packet_type = kPacketIAmHere
      · right; left
        rw [processReceivedBuffer_iamhere_new Parse env cur_time_ms from_ buffer
          hacc h0 hnone]
        exact ⟨_, rfl, rfl, hnone⟩
      · left
        rw [processReceivedBuffer_not_iamhere_absent Parse env cur_time_ms from_ buffer
          h0 hnone]
  · left
    rw [processReceivedBuffer_rejected Parse env cur_time_ms from_ buffer hacc]

/-- Rewriting an entry without touching its endpoint keeps one entry per identity. -/
theorem OnePerIdentity_replace (mode : SamePeerMode)
    (l1 : List DiscoveredPeer) (e e2 : DiscoveredPeer) (l2 : List DiscoveredPeer)
    (hip : e2.ip_port = e.ip_port) (hinv : OnePerIdentity mode (l1 ++ e :: l2)) :
    OnePerIdentity mode (l1 ++ e2 :: l2) := by
  unfold OnePerIdentity at *
  have hmap : ∀ l : List DiscoveredPeer,
      l.Pairwise (fun a b => Same mode a.ip_port b.ip_port = false) ↔
      (l.map DiscoveredPeer.ip_port).Pairwise (fun a b => Same mode a b = false) := by
    intro l
    rw [List.pairwise_map]
  rw [hmap] at hinv ⊢
  simpa [hip] using hinv

/-- Every call keeps one entry per identity. -/
theorem step_OnePerIdentity (Parse : Bytes → ProtocolVersion × Packet)
    (Serialize : Packet → ProtocolVersion → Option Bytes) (env : PeerEnv) (ev : Event)
    (hinv : OnePerIdentity env.parameters_.same_peer_mode env.discovered_peers_) :
    OnePerIdentity env.parameters_.same_peer_mode
      (step Parse Serialize env ev).discovered_peers_ := by
  cases ev with
  | received now from_ buffer =>
    simp only [step]
    rcases processReceivedBuffer_table_cases Parse env now from_ buffer with
      h | ⟨d, h, hd, hnone⟩ | ⟨l1, e, e2, l2, htable, h, hip, -⟩ | ⟨l1, e, l2, htable, h, -⟩
    · rw [h]; exact hinv
    · rw [h]
      unfold OnePerIdentity at *
      rw [List.pairwise_append]
      refine ⟨hinv, List.pairwise_singleton _ _, ?_⟩
      intro x hx y hy
      rw [List.mem_singleton] at hy
      rw [hy, hd]
      exact hnone x hx
    · rw [h]
      rw [htable] at hinv
      exact OnePerIdentity_replace _ l1 e e2 l2 hip hinv
    · rw [h]
      rw [htable] at hinv
      unfold OnePerIdentity at *
      exact List.Pairwise.sublist (by simp) hinv
  | idle now =>
    simp only [step, deleteIdle]
    unfold OnePerIdentity at *
    exact List.Pairwise.filter _ hinv
  | send under_lock protocol_version packet_type =>
    simp only [step, sendPacket]
    split <;> exact hinv
  | user_data user_data => exact hinv

theorem run_OnePerIdentity (Parse : Bytes → ProtocolVersion × Packet)
    (Serialize : Packet → ProtocolVersion → Option Bytes) (evs : List Event) :
    ∀ env : PeerEnv,
      OnePerIdentity env.parameters_.same_peer_mode env.discovered_peers_ →
      OnePerIdentity env.parameters_.same_peer_mode
        (run Parse Serialize env evs).discovered_peers_ := by
  induction evs with
  | nil => intro env h; exact h
  | cons ev evs ih =>
    intro env h
    simp only [run]
    have h2 := step_OnePerIdentity Parse Serialize env ev h
    rw [← step_parameters Parse Serialize env ev] at h2 ⊢
    exact ih _ h2

/-! ## Lemmas on the effect of received buffers -/

/-- Once a packet is accepted, the table update reads its type, user data and snapshot
index only: two accepted packets that agree on these three fields have the same effect. -/
theorem processReceivedBuffer_accepted_congr (Parse : Bytes → ProtocolVersion × Packet)
    (env : PeerEnv) (cur_time_ms : Int) (from_ : IpPort) (buffer1 buffer2 : Bytes)
    (hacc1 : Accepted env (Parse buffer1).1 (Parse buffer1).2)
    (hacc2 : Accepted env (Parse buffer2).1 (Parse buffer2).2)
    (htype : (Parse buffer1).2.packet_type = (Parse buffer2).2.packet_type)
    (hdata : (Parse buffer1).2.user_data = (Parse buffer2).2.user_data)
    (hindex : (Parse buffer1).2.snapshot_index = (Parse buffer2).2.snapshot_index) :
    processReceivedBuffer Parse env cur_time_ms from_ buffer1 =
      processReceivedBuffer Parse env cur_time_ms from_ buffer2 := by
  obtain ⟨a1, a2, a3, a4, a5⟩ := hacc1
  obtain ⟨b1, b2, b3, b4, b5⟩ := hacc2
  unfold processReceivedBuffer
  simp only [htype, hdata, hindex]
  by_cases hself : env.parameters_.discover_self = true
  · simp [a1, a2, a3, a4, b1, b2, b3, b4, hself]
  · have hself2 : env.parameters_.discover_self = false := by simpa using hself
    have a6 := a5 hself2
    have b6 := b5 hself2
    simp [a1, a2, a3, a4, a6, b1, b2, b3, b4, b6, hself2]

/-- After an accepted IAmHere from `from_` the table holds an entry that matches `from_`. -/
theorem processReceivedBuffer_iamhere_present (Parse : Bytes → ProtocolVersion × Packet)
    (env : PeerEnv) (cur_time_ms : Int) (from_ : IpPort) (buffer : Bytes)
    (hacc : Accepted env (Parse buffer).1 (Parse buffer).2)
    (htype : (Parse buffer).2.packet_type = kPacketIAmHere) :
    ∃ x ∈ (processReceivedBuffer Parse env cur_time_ms from_ buffer).discovered_peers_,
      Same env.parameters_.same_peer_mode x.ip_port from_ = true := by
  by_cases hex : ∃ x ∈ env.discovered_peers_,
      Same env.parameters_.same_peer_mode x.ip_port from_ = true
  · obtain ⟨l1, e, l2, htable, hfirst, hmatch⟩ := find_if_split_of_exists
      (fun peer => Same env.parameters_.same_peer_mode peer.ip_port from_)
      env.discovered_peers_ hex
    rw [processReceivedBuffer_iamhere_existing Parse env cur_time_ms from_ buffer
      l1 e l2 hacc htype htable hfirst hmatch]
    refine ⟨_, List.mem_append_right _ (List.mem_cons_self _ _), ?_⟩
    exact hmatch
  · have hnone : ∀ x ∈ env.discovered_peers_,
        Same env.parameters_.same_peer_mode x.ip_port from_ = false := by
      intro x hx
      cases h : Same env.parameters_.same_peer_mode x.ip_port from_
      · rfl
      · exact absurd ⟨x, hx, h⟩ hex
    rw [processReceivedBuffer_iamhere_new Parse env cur_time_ms from_ buffer
      hacc htype hnone]
    refine ⟨_, List.mem_append_right _ (List.mem_singleton_self _), ?_⟩
    exact Same_refl _ _

/-- A buffer received from `from_` never removes the match of an endpoint that is not
`Same` as `from_`. -/
theorem processReceivedBuffer_keeps_other_match (Parse : Bytes → ProtocolVersion × Packet)
    (env : PeerEnv) (cur_time_ms : Int) (from_ other : IpPort) (buffer : Bytes)
    (hother : Same env.parameters_.same_peer_mode other from_ = false)
    (hex : ∃ x ∈ env.discovered_peers_,
      Same env.parameters_.same_peer_mode x.ip_port other = true) :
    ∃ x ∈ (processReceivedBuffer Parse env cur_time_ms from_ buffer).discovered_peers_,
      Same env.parameters_.same_peer_mode x.ip_port other = true := by
  obtain ⟨x, hx, hxo⟩ := hex
  have hne : ∀ e : DiscoveredPeer,
      Same env.parameters_.same_peer_mode e.ip_port from_ = true → x ≠ e := by
    intro e he hxe
    rw [hxe] at hxo
    have h1 : Same env.parameters_.same_peer_mode other e.ip_port = true := by
      rw [Same_symm]; exact hxo
    rw [Same_trans _ _ _ _ h1 he] at hother
    exact Bool.noConfusion hother
  rcases processReceivedBuffer_table_cases Parse env cur_time_ms from_ buffer with
    h | ⟨d, h, -, -⟩ | ⟨l1, e, e2, l2, htable, h, hip, hm⟩ | ⟨l1, e, l2, htable, h, hm⟩
  · rw [h]; exact ⟨x, hx, hxo⟩
  · rw [h]; exact ⟨x, by simp [hx], hxo⟩
  · rw [h]
    rw [htable] at hx
    refine ⟨x, ?_, hxo⟩
    have := hne e hm
    simp only [List.mem_append, List.mem_cons] at hx ⊢
    tauto
  · rw [h]
    rw [htable] at hx
    refine ⟨x, ?_, hxo⟩
    have := hne e hm
    simp only [List.mem_append, List.mem_cons] at hx ⊢
    tauto

/-! ## Lemmas on `sendPacket` -/

/-- The packet built by `sendPacket` and the state it leaves. -/
theorem sendPacket_eq (Serialize : Packet → ProtocolVersion → Option Bytes) (env : PeerEnv)
    (under_lock : Bool) (protocol_version : ProtocolVersion) (packet_type : PacketType) :
    (sendPacket Serialize env under_lock protocol_version packet_type).1 =
        { env with packet_index_ := (env.packet_index_ + 1) % 2 ^ 64 } ∧
    (sendPacket Serialize env under_lock protocol_version packet_type).2.1 =
        { packet_type := packet_type, application_id := env.parameters_.application_id,
          peer_id := env.peer_id_, snapshot_index := env.packet_index_,
          user_data := env.user_data_ } := by
  unfold sendPacket
  simp only [ite_self, Packet.set_packet_type, Packet.set_application_id, Packet.set_peer_id,
    Packet.set_snapshot_index, Packet.SwapUserData]
  split <;> exact ⟨rfl, rfl⟩

/-- Only `sendPacket` moves the packet counter. -/
theorem step_packet_index (Parse : Bytes → ProtocolVersion × Packet)
    (Serialize : Packet → ProtocolVersion → Option Bytes) (env : PeerEnv) (ev : Event) :
    (step Parse Serialize env ev).packet_index_ =
      match ev with
      | Event.send _ _ _ => (env.packet_index_ + 1) % 2 ^ 64
      | _ => env.packet_index_ := by
  cases ev with
  | received now from_ buffer =>
    simp only [step]
    rw [processReceivedBuffer_frame]
  | idle now => rfl
  | send under_lock protocol_version packet_type =>
    simp only [step]
    rw [(sendPacket_eq Serialize env under_lock protocol_version packet_type).1]
  | user_data user_data => rfl

/-- The packet at position `k` of the packets built from a state whose counter is `c`
carries `(c + k) mod 2 ^ 64`. -/
theorem built_snapshot_index (Parse : Bytes → ProtocolVersion × Packet)
    (Serialize : Packet → ProtocolVersion → Option Bytes) (evs : List Event) :
    ∀ (env : PeerEnv) (k : Nat) (pkt : Packet),
      env.packet_index_ < 2 ^ 64 →
      (built Parse Serialize env evs)[k]? = some pkt →
      pkt.snapshot_index = (env.packet_index_ + k) % 2 ^ 64 := by
  induction evs with
  | nil =>
    intro env k pkt _ h
    simp [built] at h
  | cons ev evs ih =>
    intro env k pkt hlt h
    have hidx := step_packet_index Parse Serialize env ev
    cases ev with
    | send under_lock protocol_version packet_type =>
      simp only [built] at h
      simp only [] at hidx
      cases k with
      | zero =>
        simp only [List.getElem?_cons_zero, Option.some.injEq] at h
        rw [← h, (sendPacket_eq Serialize env under_lock protocol_version packet_type).2]
        simp only [Nat.add_zero]
        exact (Nat.mod_eq_of_lt hlt).symm
      | succ k =>
        simp only [List.getElem?_cons_succ] at h
        have hlt2 : (step Parse Serialize env
            (Event.send under_lock protocol_version packet_type)).packet_index_ < 2 ^ 64 := by
          rw [hidx]
          exact Nat.mod_lt _ (by norm_num)
        rw [ih _ k pkt hlt2 h, hidx]
        norm_num
        omega
    | received now from_ buffer =>
      simp only [built] at h
      simp only [] at hidx
      rw [ih _ k pkt (by rw [hidx]; exact hlt) h, hidx]
    | idle now =>
      simp only [built] at h
      simp only [] at hidx
      rw [ih _ k pkt (by rw [hidx]; exact hlt) h, hidx]
    | user_data user_data =>
      simp only [built] at h
      simp only [] at hidx
      rw [ih _ k pkt (by rw [hidx]; exact hlt) h, hidx]

/-- A run of `n` calls of `sendPacket` builds `n` packets. -/
theorem built_replicate_send_length (Parse : Bytes → ProtocolVersion × Packet)
    (Serialize : Packet → ProtocolVersion → Option Bytes)
    (under_lock : Bool) (protocol_version : ProtocolVersion) (packet_type : PacketType)
    (n : Nat) :
    ∀ env : PeerEnv,
      (built Parse Serialize env
        (List.replicate n (Event.send under_lock protocol_version packet_type))).length =
        n := by
  induction n with
  | zero => intro env; rfl
  | succ n ih =>
    intro env
    simp only [List.replicate_succ, built, List.length_cons, ih]

/-! ## Lemmas on the entry of one identity -/

theorem entry_for_eq_none_iff (mode : SamePeerMode) (id0 : IpPort)
    (table : List DiscoveredPeer) :
    entry_for mode id0 table = none ↔ ∀ x ∈ table, Same mode x.ip_port id0 = false := by
  unfold entry_for
  rw [List.find?_eq_none]
  simp

theorem entry_for_eq_some_iff (mode : SamePeerMode) (id0 : IpPort)
    (table : List DiscoveredPeer) (e : DiscoveredPeer) :
    entry_for mode id0 table = some e ↔
      Same mode e.ip_port id0 = true ∧ ∃ l1 l2, table = l1 ++ e :: l2 ∧
        ∀ x ∈ l1, Same mode x.ip_port id0 = false := by
  unfold entry_for
  rw [List.find?_eq_some]
  simp

/-- A buffer from an endpoint that is not `Same` as `id0` leaves the entry of `id0` as it
is. -/
theorem entry_for_processReceivedBuffer_other (Parse : Bytes → ProtocolVersion × Packet)
    (env : PeerEnv) (cur_time_ms : Int) (from_ id0 : IpPort) (buffer : Bytes)
    (hother : Same env.parameters_.same_peer_mode from_ id0 = false) :
    entry_for env.parameters_.same_peer_mode id0
        (processReceivedBuffer Parse env cur_time_ms from_ buffer).discovered_peers_ =
      entry_for env.parameters_.same_peer_mode id0 env.discovered_peers_ := by
  have hne : ∀ e : DiscoveredPeer,
      Same env.parameters_.same_peer_mode e.ip_port from_ = true →
      Same env.parameters_.same_peer_mode e.ip_port id0 = false := by
    intro e he
    cases h : Same env.parameters_.same_peer_mode e.ip_port id0
    · rfl
    · have h1 : Same env.parameters_.same_peer_mode from_ e.ip_port = true := by
        rw [Same_symm]; exact he
      rw [Same_trans _ _ _ _ h1 h] at hother
      exact Bool.noConfusion hother
  rcases processReceivedBuffer_table_cases Parse env cur_time_ms from_ buffer with
    h | ⟨d, h, hd, -⟩ | ⟨l1, e, e2, l2, htable, h, hip, hm⟩ | ⟨l1, e, l2, htable, h, hm⟩
  · rw [h]
  · rw [h]
    unfold entry_for
    simp [List.find?_append, List.find?_cons, hd, hother]
  · rw [h, htable]
    unfold entry_for
    have h1 := hne e hm
    have h2 : Same env.parameters_.same_peer_mode e2.ip_port id0 = false := by
      rw [hip]; exact h1
    simp [List.find?_append, List.find?_cons, h1, h2]
  · rw [h, htable]
    unfold entry_for
    have h1 := hne e hm
    simp [List.find?_append, List.find?_cons, h1]

/-- `deleteIdle` leaves the entry of `id0` as it is when that entry is within the TTL, and
creates none. -/
theorem entry_for_deleteIdle (env : PeerEnv) (cur_time_ms : Int) (id0 : IpPort) :
    (entry_for env.parameters_.same_peer_mode id0 env.discovered_peers_ = none →
      entry_for env.parameters_.same_peer_mode id0
        (deleteIdle env cur_time_ms).discovered_peers_ = none) ∧
    (∀ e, entry_for env.parameters_.same_peer_mode id0 env.discovered_peers_ = some e →
      cur_time_ms - e.last_updated ≤ env.parameters_.discovered_peer_ttl_ms →
      entry_for env.parameters_.same_peer_mode id0
        (deleteIdle env cur_time_ms).discovered_peers_ = some e) := by
  constructor
  · intro hnone
    rw [entry_for_eq_none_iff] at hnone ⊢
    intro x hx
    simp only [deleteIdle] at hx
    exact hnone x (List.mem_filter.mp hx).1
  · intro e hsome hfresh
    rw [entry_for_eq_some_iff] at hsome ⊢
    obtain ⟨hm, l1, l2, htable, hfirst⟩ := hsome
    refine ⟨hm, l1.filter (fun peer => !decide (cur_time_ms - peer.last_updated >
      env.parameters_.discovered_peer_ttl_ms)), l2.filter (fun peer =>
      !decide (cur_time_ms - peer.last_updated > env.parameters_.discovered_peer_ttl_ms)),
      ?_, ?_⟩
    · simp only [deleteIdle, htable, List.filter_append]
      have hkeep : (!decide (cur_time_ms - e.last_updated >
          env.parameters_.discovered_peer_ttl_ms)) = true := by
        have : ¬ (cur_time_ms - e.last_updated > env.parameters_.discovered_peer_ttl_ms) := by
          omega
        simp only [this, decide_False, Bool.not_false]
      simp only [List.filter_cons, hkeep, if_true]
    · intro x hx
      exact hfirst x (List.mem_filter.mp hx).1

/-- The recorded index bounds every packet seen so far and is the index of one of them. -/
theorem RecordsHighest_bounds (e : DiscoveredPeer) (ps : List Packet)
    (h : RecordsHighest e ps) :
    (∀ x ∈ ps, x.snapshot_index ≤ e.last_received_packet) ∧
    ∃ q ∈ ps, e.last_received_packet = q.snapshot_index := by
  obtain ⟨pre, q, post, hps, hpre, hpost, hidx, -⟩ := h
  constructor
  · intro x hx
    rw [hps] at hx
    rw [hidx]
    rcases List.mem_append.mp hx with hx | hx
    · exact Nat.le_of_lt (hpre x hx)
    · rcases List.mem_cons.mp hx with rfl | hx
      · exact Nat.le_refl _
      · exact hpost x hx
  · exact ⟨q, by rw [hps]; simp, hidx⟩

/-- One more packet: the record moves to it exactly when its index is strictly greater. -/
theorem RecordsHighest_snoc (e : DiscoveredPeer) (ps : List Packet) (p : Packet)
    (h : RecordsHighest e ps) :
    RecordsHighest
      { ip_port := e.ip_port,
        user_data :=
          if e.last_received_packet < p.snapshot_index then p.user_data else e.user_data,
        last_received_packet :=
          if e.last_received_packet < p.snapshot_index then p.snapshot_index
          else e.last_received_packet,
        last_updated := 0 } (ps ++ [p]) := by
  have hb := (RecordsHighest_bounds e ps h).1
  obtain ⟨pre, q, post, hps, hpre, hpost, hidx, hdata⟩ := h
  by_cases hlt : e.last_received_packet < p.snapshot_index
  · refine ⟨ps, p, [], rfl, ?_, by simp, by simp [hlt], by simp [hlt]⟩
    intro x hx
    exact Nat.lt_of_le_of_lt (hb x hx) hlt
  · refine ⟨pre, q, post ++ [p], by rw [hps]; simp, hpre, ?_, ?_, ?_⟩
    rotate_left
    · show (if _ then _ else _) = _
      rw [if_neg hlt]
      exact hidx
    · show (if _ then _ else _) = _
      rw [if_neg hlt]
      exact hdata
    intro x hx
    rcases List.mem_append.mp hx with hx | hx
    · exact hpost x hx
    · rw [List.mem_singleton] at hx
      rw [hx, ← hidx]
      omega

/-- The record does not look at the endpoint or the timestamp of the entry. -/
theorem RecordsHighest_congr (e e2 : DiscoveredPeer) (ps : List Packet)
    (hidx : e2.last_received_packet = e.last_received_packet)
    (hdata : e2.user_data = e.user_data) (h : RecordsHighest e ps) :
    RecordsHighest e2 ps := by
  obtain ⟨pre, q, post, hps, hpre, hpost, h1, h2⟩ := h
  exact ⟨pre, q, post, hps, hpre, hpost, by rw [hidx, h1], by rw [hdata, h2]⟩

/-- An accepted IAmHere that arrives from the identity of `id0` extends what the table
tracks by its packet. -/
theorem Tracks_processReceivedBuffer_own (Parse : Bytes → ProtocolVersion × Packet)
    (env : PeerEnv) (cur_time_ms : Int) (from_ id0 : IpPort) (buffer : Bytes)
    (ps : List Packet)
    (hown : Same env.parameters_.same_peer_mode from_ id0 = true)
    (hacc : Accepted env (Parse buffer).1 (Parse buffer).2)
    (htype : (Parse buffer).2.packet_type = kPacketIAmHere)
    (h : Tracks env.parameters_.same_peer_mode id0 env.discovered_peers_ ps) :
    Tracks env.parameters_.same_peer_mode id0
      (processReceivedBuffer Parse env cur_time_ms from_ buffer).discovered_peers_
      (ps ++ [(Parse buffer).2]) := by
  have hswap : ∀ x : DiscoveredPeer,
      Same env.parameters_.same_peer_mode x.ip_port from_ =
        Same env.parameters_.same_peer_mode x.ip_port id0 :=
    fun x => Same_congr_right _ x.ip_port from_ id0 hown
  right
  rcases h with ⟨hps, hnone⟩ | ⟨e, hsome, hrec⟩
  · rw [entry_for_eq_none_iff] at hnone
    rw [processReceivedBuffer_iamhere_new Parse env cur_time_ms from_ buffer hacc htype
      (fun x hx => by rw [hswap]; exact hnone x hx)]
    refine ⟨{ ip_port := from_, user_data := (Parse buffer).2.user_data,
              last_received_packet := (Parse buffer).2.snapshot_index,
              last_updated := cur_time_ms },
      (entry_for_eq_some_iff _ _ _ _).mpr
        ⟨hown, env.discovered_peers_, [], rfl, hnone⟩, ?_⟩
    rw [hps]
    exact ⟨[], (Parse buffer).2, [], rfl, by simp, by simp, rfl, rfl⟩
  · obtain ⟨hm, l1, l2, htable, hfirst⟩ := (entry_for_eq_some_iff _ _ _ _).mp hsome
    rw [processReceivedBuffer_iamhere_existing Parse env cur_time_ms from_ buffer l1 e l2
      hacc htype htable (fun x hx => by rw [hswap]; exact hfirst x hx)
      (by rw [hswap]; exact hm)]
    have hrec2 := RecordsHighest_snoc e ps (Parse buffer).2 hrec
    refine ⟨{ ip_port := e.ip_port,
              user_data :=
                if e.last_received_packet < (Parse buffer).2.snapshot_index then
                  (Parse buffer).2.user_data
                else e.user_data,
              last_received_packet :=
                if e.last_received_packet < (Parse buffer).2.snapshot_index then
                  (Parse buffer).2.snapshot_index
                else e.last_received_packet,
              last_updated := cur_time_ms },
      (entry_for_eq_some_iff _ _ _ _).mpr ⟨hm, l1, l2, rfl, hfirst⟩, ?_⟩
    exact RecordsHighest_congr _ _ _ rfl rfl hrec2

theorem packets_from_congr (Parse : Bytes → ProtocolVersion × Packet)
    (env1 env2 : PeerEnv) (id0 : IpPort) (evs : List Event)
    (hparams : env1.parameters_ = env2.parameters_) (hid : env1.peer_id_ = env2.peer_id_) :
    packets_from Parse env1 id0 evs = packets_from Parse env2 id0 evs := by
  induction evs with
  | nil => rfl
  | cons ev evs ih =>
    cases ev with
    | received now from_ buffer =>
      have hacc := Accepted_congr env1 env2 (Parse buffer).1 (Parse buffer).2 hparams hid
      simp only [packets_from, hparams, hacc, ih]
    | idle now => simpa [packets_from] using ih
    | send under_lock protocol_version packet_type => simpa [packets_from] using ih
    | user_data user_data => simpa [packets_from] using ih

theorem packets_from_cons (Parse : Bytes → ProtocolVersion × Packet) (env : PeerEnv)
    (id0 : IpPort) (ev : Event) (evs : List Event) :
    packets_from Parse env id0 (ev :: evs) =
      packets_from Parse env id0 [ev] ++ packets_from Parse env id0 evs := by
  cases ev with
  | received now from_ buffer =>
    simp only [packets_from]
    split <;> simp
  | idle now => simp [packets_from]
  | send under_lock protocol_version packet_type => simp [packets_from]
  | user_data user_data => simp [packets_from]

theorem packets_from_append (Parse : Bytes → ProtocolVersion × Packet) (env : PeerEnv)
    (id0 : IpPort) (evs1 evs2 : List Event) :
    packets_from Parse env id0 (evs1 ++ evs2) =
      packets_from Parse env id0 evs1 ++ packets_from Parse env id0 evs2 := by
  induction evs1 with
  | nil => simp [packets_from]
  | cons ev evs ih =>
    rw [List.cons_append, packets_from_cons, ih, packets_from_cons Parse env id0 ev evs,
      List.append_assoc]

theorem never_removed_append (Parse : Bytes → ProtocolVersion × Packet)
    (Serialize : Packet → ProtocolVersion → Option Bytes) (id0 : IpPort)
    (evs1 evs2 : List Event) :
    ∀ env : PeerEnv, never_removed Parse Serialize id0 env (evs1 ++ evs2) =
      (never_removed Parse Serialize id0 env evs1 &&
        never_removed Parse Serialize id0 (run Parse Serialize env evs1) evs2) := by
  induction evs1 with
  | nil => intro env; simp [never_removed, run]
  | cons ev evs ih =>
    intro env
    show (_ && never_removed Parse Serialize id0 (step Parse Serialize env ev)
      (evs ++ evs2)) = _
    rw [ih]
    simp only [never_removed, run, Bool.and_assoc]

/-- One call keeps the table tracking the identity of `id0`, as long as it neither evicts
nor removes the entry of `id0`. -/
theorem step_Tracks (Parse : Bytes → ProtocolVersion × Packet)
    (Serialize : Packet → ProtocolVersion → Option Bytes) (env : PeerEnv) (id0 : IpPort)
    (ev : Event) (ps : List Packet)
    (h : Tracks env.parameters_.same_peer_mode id0 env.discovered_peers_ ps)
    (hkeep : never_removed Parse Serialize id0 env [ev] = true) :
    Tracks env.parameters_.same_peer_mode id0 (step Parse Serialize env ev).discovered_peers_
      (ps ++ packets_from Parse env id0 [ev]) := by
  cases ev with
  | received now from_ buffer =>
    simp only [step, packets_from]
    cases hsame : Same env.parameters_.same_peer_mode from_ id0
    · simp only [Bool.false_eq_true, false_and, if_false, List.append_nil]
      unfold Tracks
      rw [entry_for_processReceivedBuffer_other Parse env now from_ id0 buffer hsame]
      exact h
    · by_cases hacc : Accepted env (Parse buffer).1 (Parse buffer).2
      · by_cases h0 : (Parse buffer).2.packet_type = kPacketIAmHere
        · simp only [hacc, h0, and_self, if_true]
          exact Tracks_processReceivedBuffer_own Parse env now from_ id0 buffer ps hsame
            hacc h0 h
        · simp only [hacc, h0, and_false, if_false, List.append_nil]
          by_cases h1 : (Parse buffer).2.packet_type = kPacketIAmOutOfHere
          · simp only [never_removed, hsame, hacc, h1, and_self, if_true, Bool.and_true,
              Option.isNone_iff_eq_none] at hkeep
            have hnone := (entry_for_eq_none_iff _ _ _).mp hkeep
            rw [processReceivedBuffer_not_iamhere_absent Parse env now from_ buffer h0
              (fun x hx => by
                rw [Same_congr_right _ x.ip_port from_ id0 hsame]
                exact hnone x hx)]
            exact h
          · rw [processReceivedBuffer_other_type Parse env now from_ buffer h0 h1]
            exact h
      · simp only [hacc, false_and, and_false, if_false, List.append_nil]
        rw [processReceivedBuffer_rejected Parse env now from_ buffer hacc]
        exact h
  | idle now =>
    simp only [step, packets_from, List.append_nil]
    have hd := entry_for_deleteIdle env now id0
    rcases h with ⟨hps, hnone⟩ | ⟨e, hsome, hrec⟩
    · exact Or.inl ⟨hps, hd.1 hnone⟩
    · right
      refine ⟨e, hd.2 e hsome ?_, hrec⟩
      simp only [never_removed, hsome, Bool.and_true, decide_eq_true_eq] at hkeep
      exact hkeep
  | send under_lock protocol_version packet_type =>
    simp only [step, packets_from, List.append_nil]
    rw [(sendPacket_eq Serialize env under_lock protocol_version packet_type).1]
    exact h
  | user_data user_data =>
    simp only [step, packets_from, List.append_nil]
    exact h

/-- An execution keeps the table tracking the identity of `id0`, as long as it neither
evicts nor removes the entry of `id0`. -/
theorem run_Tracks (Parse : Bytes → ProtocolVersion × Packet)
    (Serialize : Packet → ProtocolVersion → Option Bytes) (id0 : IpPort)
    (evs : List Event) :
    ∀ (env : PeerEnv) (ps : List Packet),
      Tracks env.parameters_.same_peer_mode id0 env.discovered_peers_ ps →
      never_removed Parse Serialize id0 env evs = true →
      Tracks env.parameters_.same_peer_mode id0
        (run Parse Serialize env evs).discovered_peers_
        (ps ++ packets_from Parse env id0 evs) := by
  induction evs with
  | nil =>
    intro env ps h _
    simpa [run, packets_from] using h
  | cons ev evs ih =>
    intro env ps h hkeep
    have hparams := step_parameters Parse Serialize env ev
    have hid := step_peer_id Parse Serialize env ev
    simp only [never_removed, Bool.and_eq_true] at hkeep
    have h1 := step_Tracks Parse Serialize env id0 ev ps h
      (by simp only [never_removed, Bool.and_true]; exact hkeep.1)
    rw [← hparams] at h1
    have h2 := ih (step Parse Serialize env ev) _ h1 hkeep.2
    rw [hparams, packets_from_congr Parse _ env id0 evs hparams hid] at h2
    rw [packets_from_cons, ← List.append_assoc]
    exact h2

/-! ## Lemmas on the sending thread -/

/-- The duration that an iteration which does not exit passes to `SleepFor`: the wait of
the send schedule if the peer can be discovered and `0` otherwise, lowered to the wait of
the eviction schedule if the peer can discover. -/
theorem SendingThreadFunc_iteration_to_sleep
    (Serialize : Packet → ProtocolVersion → Option Bytes) (env : PeerEnv)
    (locals : SendingThreadLocals) (cur_time_ms : Int) (hexit : env.exit_ = false) :
    (SendingThreadFunc_iteration Serialize env locals cur_time_ms).to_sleep_ms =
      some
        (if env.parameters_.can_discover then
          min
            (if env.parameters_.can_be_discovered then
              (IsRightTime locals.last_send_time_ms cur_time_ms
                env.parameters_.send_timeout_ms).2
            else 0)
            (IsRightTime locals.last_delete_idle_ms cur_time_ms
              env.parameters_.discovered_peer_ttl_ms).2
        else if env.parameters_.can_be_discovered then
          (IsRightTime locals.last_send_time_ms cur_time_ms
            env.parameters_.send_timeout_ms).2
        else 0) := by
  have hparams : (sendPacket_each_version Serialize env false kPacketIAmHere).1.parameters_ =
      env.parameters_ := by
    unfold sendPacket_each_version
    generalize (List.range' env.parameters_.min_supported_protocol_version
      (env.parameters_.max_supported_protocol_version + 1 -
        env.parameters_.min_supported_protocol_version)) = versions
    have hgen : ∀ (acc : PeerEnv × List (IpPort × Bytes)),
        (versions.foldl
          (fun acc protocol_version =>
            let r := sendPacket Serialize acc.1 false protocol_version kPacketIAmHere
            (r.1, acc.2 ++ r.2.2.toList)) acc).1.parameters_ = acc.1.parameters_ := by
      induction versions with
      | nil => intro acc; rfl
      | cons v vs ih =>
        intro acc
        simp only [List.foldl_cons]
        rw [ih]
        simp only []
        rw [(sendPacket_eq Serialize acc.1 false v kPacketIAmHere).1]
    exact hgen (env, [])
  have hmin : ∀ a b : Int, (if a > b then b else a) = min a b := by
    intro a b
    by_cases h : a > b
    · rw [if_pos h, min_eq_right (le_of_lt h)]
    · rw [if_neg h, min_eq_left (not_lt.mp h)]
  unfold SendingThreadFunc_iteration
  simp only [hexit, Bool.false_eq_true, if_false]
  by_cases hbd : env.parameters_.can_be_discovered = true
  · by_cases hfire : (IsRightTime locals.last_send_time_ms cur_time_ms
        env.parameters_.send_timeout_ms).1 = true
    · simp only [hbd, hfire, if_true, hparams]
      by_cases hd : env.parameters_.can_discover = true
      · simp only [hd, if_true, hmin]
      · simp only [hd, if_false, Bool.false_eq_true]
    · simp only [hbd, hfire, if_true, if_false, Bool.false_eq_true]
      by_cases hd : env.parameters_.can_discover = true
      · simp only [hd, if_true, hmin]
      · simp only [hd, if_false, Bool.false_eq_true]
  · simp only [hbd, if_false, Bool.false_eq_true]
    by_cases hd : env.parameters_.can_discover = true
    · simp only [hd, if_true, hmin]
    · simp only [hd, if_false, Bool.false_eq_true]

/-! ## Lemmas on `Peer` -/

/-- `Peer::Stop` leaves a peer without environment as it is and empties any other. -/
theorem Peer.Stop_fst (peer : Peer) (w : Bool) :
    (peer.Stop w).1 =
      match peer.env_ with
      | none => peer
      | some _ => { env_ := none, sending_thread_ := false, receiving_thread_ := false } := by
  unfold Peer.Stop
  cases peer.env_ with
  | none => rfl
  | some e => simp only [ite_self]

/-- After `Peer::Stop` the peer is stopped, provided a peer without environment holds no
thread. -/
theorem Peer.Stop_stopped (peer : Peer) (w : Bool)
    (h : peer.env_ = none → peer.sending_thread_ = false ∧ peer.receiving_thread_ = false) :
    (peer.Stop w).1.env_ = none ∧ (peer.Stop w).1.sending_thread_ = false ∧
      (peer.Stop w).1.receiving_thread_ = false := by
  rw [Peer.Stop_fst]
  cases hp : peer.env_ with
  | none => exact ⟨hp, (h hp).1, (h hp).2⟩
  | some e => exact ⟨rfl, rfl, rfl⟩

/-- A `Peer` without environment holds no thread: true of a new `Peer` and kept by `Start`
and `Stop`. -/
theorem Peer.call_no_env_no_thread (peer : Peer) (c : PeerCall)
    (h : peer.env_ = none → peer.sending_thread_ = false ∧ peer.receiving_thread_ = false) :
    (peer.call c).env_ = none →
      (peer.call c).sending_thread_ = false ∧ (peer.call c).receiving_thread_ = false := by
  cases c with
  | Stop w =>
    intro _
    exact (Peer.Stop_stopped peer w h).2
  | Start os parameters user_data =>
    simp only [Peer.call, Peer.Start]
    split
    · intro _
      exact (Peer.Stop_stopped peer false h).2
    · split <;> intro hnone <;> exact Option.noConfusion hnone

theorem Peer.after_no_env_no_thread (calls : List PeerCall) :
    (Peer.after calls).env_ = none →
      (Peer.after calls).sending_thread_ = false ∧
        (Peer.after calls).receiving_thread_ = false := by
  unfold Peer.after
  have hgen : ∀ (peer : Peer),
      (peer.env_ = none → peer.sending_thread_ = false ∧ peer.receiving_thread_ = false) →
      (calls.foldl Peer.call peer).env_ = none →
        (calls.foldl Peer.call peer).sending_thread_ = false ∧
          (calls.foldl Peer.call peer).receiving_thread_ = false := by
    induction calls with
    | nil => intro peer h; exact h
    | cons c cs ih =>
      intro peer h
      exact ih (peer.call c) (Peer.call_no_env_no_thread peer c h)
  exact hgen {} (fun _ => ⟨rfl, rfl⟩)

/-! ## Lemmas on the wire codec -/

theorem and_0xff (x : Nat) : x &&& 0xff = x % 256 :=
  Nat.and_pow_two_sub_one_eq_mod x 8

theorem big_endian_value_snoc (bytes : Bytes) (c : Nat) :
    big_endian_value (bytes ++ [c]) = big_endian_value bytes * 256 + c % 256 := by
  unfold big_endian_value
  rw [List.foldl_append]
  rfl

theorem big_endian_value_lt (bytes : Bytes) :
    big_endian_value bytes < 256 ^ bytes.length := by
  induction bytes using List.reverseRecOn with
  | nil => simp [big_endian_value]
  | append_singleton l c ih =>
    rw [big_endian_value_snoc, List.length_append, List.length_singleton, pow_succ]
    have hc : c % 256 < 256 := Nat.mod_lt _ (by norm_num)
    nlinarith

/-- The serialize direction appends the bytes of `big_endian_bytes`. -/
theorem SerializeUnsignedIntegerBigEndian_serialize (n value : Nat)
    (buffer_view : BufferView) :
    SerializeUnsignedIntegerBigEndian n SerializeDirection.kSerialize value buffer_view =
      some (true, value,
        { buffer_view with buffer_ := buffer_view.buffer_ ++ big_endian_bytes n value }) := by
  have hfold : ∀ (l : List Nat) (f : Nat → Nat) (view : BufferView),
      l.foldl (fun view i => view.push_back (f i)) view =
        { view with buffer_ := view.buffer_ ++ l.map f } := by
    intro l f
    induction l with
    | nil => intro view; simp
    | cons x xs ih =>
      intro view
      rw [List.foldl_cons, ih]
      simp [BufferView.push_back]
  unfold SerializeUnsignedIntegerBigEndian big_endian_bytes
  simp only [hfold]
  congr 5
  apply List.map_congr_left
  intro i hi
  have hlt : i < n := List.mem_range.mp hi
  have hshift : (n - i - 1) * 8 = 8 * (n - 1 - i) := by omega
  rw [hshift, and_0xff, and_0xff, Nat.mod_mod]

/-- The state of the parse loop after `j` of its `n` rounds: the bytes read so far sit in
the top of the accumulator and the read position has moved by `j`. -/
theorem parse_loop_rounds (n : Nat) (buffer_view : BufferView)
    (hcan : buffer_view.parsed_ + n ≤ buffer_view.buffer_.length) :
    ∀ j, j ≤ n →
      (List.range j).foldl
        (fun state i =>
          match state with
          | none => none
          | some (acc, view) =>
            match view.Read with
            | none => none
            | some (c, view) =>
              some ((acc ||| ((c % 256) <<< ((n - i - 1) * 8))) % 2 ^ (8 * n), view))
        (some (0, buffer_view)) =
      some (big_endian_value ((buffer_view.buffer_.drop buffer_view.parsed_).take j) *
          2 ^ ((n - j) * 8),
        { buffer_view with parsed_ := buffer_view.parsed_ + j }) := by
  intro j
  induction j with
  | zero =>
    intro _
    simp [big_endian_value]
  | succ j ih =>
    intro hj
    have hlt : buffer_view.parsed_ + j < buffer_view.buffer_.length := by omega
    rw [List.range_succ, List.foldl_append, ih (by omega)]
    simp only [List.foldl_cons, List.foldl_nil, BufferView.Read]
    have hget : buffer_view.buffer_[buffer_view.parsed_ + j]? =
        some (buffer_view.buffer_[buffer_view.parsed_ + j]) := List.getElem?_eq_getElem hlt
    rw [hget]
    simp only []
    have htake : (buffer_view.buffer_.drop buffer_view.parsed_).take (j + 1) =
        (buffer_view.buffer_.drop buffer_view.parsed_).take j ++
          [buffer_view.buffer_[buffer_view.parsed_ + j]] := by
      rw [List.take_succ, List.getElem?_drop, hget]
      rfl
    rw [htake, big_endian_value_snoc]
    have hB := big_endian_value_lt ((buffer_view.buffer_.drop buffer_view.parsed_).take j)
    have hlen : ((buffer_view.buffer_.drop buffer_view.parsed_).take j).length ≤ j := by
      rw [List.length_take]
      exact Nat.min_le_left _ _
    generalize big_endian_value ((buffer_view.buffer_.drop buffer_view.parsed_).take j) = B
      at hB ⊢
    generalize ((buffer_view.buffer_.drop buffer_view.parsed_).take j).length = len
      at hB hlen
    generalize buffer_view.buffer_[buffer_view.parsed_ + j] = c
    have hy : c % 256 < 256 := Nat.mod_lt _ (by norm_num)
    generalize c % 256 = y at hy ⊢
    obtain ⟨m, hm⟩ : ∃ m, n = j + 1 + m := ⟨n - (j + 1), by omega⟩
    subst hm
    have e1 : (j + 1 + m - j) * 8 = m * 8 + 8 := by omega
    have e2 : (j + 1 + m - j - 1) * 8 = m * 8 := by omega
    have e3 : (j + 1 + m - (j + 1)) * 8 = m * 8 := by omega
    rw [e1, e2, e3, Nat.shiftLeft_eq]
    have hterm : y * 2 ^ (m * 8) < 2 ^ (m * 8 + 8) := by
      rw [pow_add]
      have : 0 < 2 ^ (m * 8) := by positivity
      nlinarith
    have hor : B * 2 ^ (m * 8 + 8) ||| y * 2 ^ (m * 8) =
        (B * 256 + y) * 2 ^ (m * 8) := by
      rw [Nat.mul_comm B, ← Nat.mul_add_lt_is_or hterm B, pow_add]
      ring
    rw [hor]
    have hB2 : B < 256 ^ j := lt_of_lt_of_le hB (Nat.pow_le_pow_right (by norm_num) hlen)
    have hbound : (B * 256 + y) * 2 ^ (m * 8) < 2 ^ (8 * (j + 1 + m)) := by
      have h256 : (256 : Nat) ^ j = 2 ^ (8 * j) := by
        rw [show (256 : Nat) = 2 ^ 8 by norm_num, ← pow_mul]
      have hsplit : 2 ^ (8 * (j + 1 + m)) = 2 ^ (8 * j) * 256 * 2 ^ (m * 8) := by
        rw [show 8 * (j + 1 + m) = 8 * j + 8 + m * 8 by ring, pow_add, pow_add]
        norm_num
      rw [hsplit]
      have hpos : 0 < 2 ^ (m * 8) := by positivity
      apply Nat.mul_lt_mul_of_pos_right _ hpos
      rw [h256] at hB2
      nlinarith
    rw [Nat.mod_eq_of_lt hbound]
    rfl

/-- The parse direction with enough bytes left: it succeeds, yields the big-endian value
of the next `n` bytes and moves the read position by `n`. -/
theorem SerializeUnsignedIntegerBigEndian_parse (n value : Nat) (buffer_view : BufferView)
    (hcan : buffer_view.parsed_ + n ≤ buffer_view.buffer_.length) :
    SerializeUnsignedIntegerBigEndian n SerializeDirection.kParse value buffer_view =
      some (true,
        big_endian_value ((buffer_view.buffer_.drop buffer_view.parsed_).take n),
        { buffer_view with parsed_ := buffer_view.parsed_ + n }) := by
  unfold SerializeUnsignedIntegerBigEndian
  have hc : buffer_view.CanRead n = true := by
    unfold BufferView.CanRead
    simpa using hcan
  simp only [hc, if_true]
  rw [parse_loop_rounds n buffer_view hcan n (Nat.le_refl n)]
  simp

/-- The parse direction with too few bytes left: it fails without touching the view. -/
theorem SerializeUnsignedIntegerBigEndian_parse_short (n value : Nat)
    (buffer_view : BufferView)
    (hshort : buffer_view.buffer_.length < buffer_view.parsed_ + n) :
    SerializeUnsignedIntegerBigEndian n SerializeDirection.kParse value buffer_view =
      some (false, 0, buffer_view) := by
  unfold SerializeUnsignedIntegerBigEndian
  have hc : buffer_view.CanRead n = false := by
    unfold BufferView.CanRead
    simpa using hshort
  simp only [hc, Bool.false_eq_true, if_false]

theorem big_endian_bytes_length (n v : Nat) : (big_endian_bytes n v).length = n := by
  simp [big_endian_bytes]

/-- The head byte of the `n + 1` bytes of `v`, then the `n` bytes of `v`. -/
theorem big_endian_bytes_succ (n v : Nat) :
    big_endian_bytes (n + 1) v = ((v >>> (8 * n)) &&& 0xff) :: big_endian_bytes n v := by
  unfold big_endian_bytes
  rw [List.range_succ_eq_map, List.map_cons, List.map_map]
  congr 1
  apply List.map_congr_left
  intro i hi
  have hlt : i < n := List.mem_range.mp hi
  simp only [Function.comp, Nat.succ_eq_add_one]
  congr 2
  omega

theorem big_endian_value_cons (c : Nat) (bytes : Bytes) :
    big_endian_value (c :: bytes) =
      (c % 256) * 256 ^ bytes.length + big_endian_value bytes := by
  induction bytes using List.reverseRecOn with
  | nil => simp [big_endian_value]
  | append_singleton l d ih =>
    rw [← List.cons_append, big_endian_value_snoc, big_endian_value_snoc, ih,
      List.length_append, List.length_singleton, pow_succ]
    ring

/-- Reading back the `n` bytes of `v` gives `v` modulo `2 ^ (8 * n)`. -/
theorem big_endian_value_bytes (n v : Nat) :
    big_endian_value (big_endian_bytes n v) = v % 2 ^ (8 * n) := by
  induction n with
  | zero => simp [big_endian_bytes, big_endian_value, Nat.mod_one]
  | succ n ih =>
    rw [big_endian_bytes_succ, big_endian_value_cons, ih, big_endian_bytes_length, and_0xff,
      Nat.mod_mod, Nat.shiftRight_eq_div_pow]
    have h256 : (256 : Nat) ^ n = 2 ^ (8 * n) := by
      rw [show (256 : Nat) = 2 ^ 8 by norm_num, ← pow_mul]
    rw [h256, show 8 * (n + 1) = 8 * n + 8 by ring, pow_add, Nat.mod_mul]
    norm_num
    ring

/-! ## Lemmas on `SameList` -/

/-- The two loops of the list comparison, as a statement about endpoints. -/
theorem SameList_eq_true_iff (mode : SamePeerMode) (xs ys : List DiscoveredPeer) :
    SameList mode xs ys = true ↔
      (∀ x ∈ xs, ∃ y ∈ ys, Same mode x.ip_port y.ip_port = true) ∧
      (∀ y ∈ ys, ∃ x ∈ xs, Same mode y.ip_port x.ip_port = true) := by
  have hloop : ∀ as bs : List DiscoveredPeer,
      (as.any (fun a =>
        find_if (fun b => Same mode a.ip_port b.ip_port) bs == bs.length)) = false ↔
      ∀ a ∈ as, ∃ b ∈ bs, Same mode a.ip_port b.ip_port = true := by
    intro as bs
    rw [List.any_eq_false]
    constructor
    · intro h a ha
      have h1 := h a ha
      have h2 : find_if (fun b => Same mode a.ip_port b.ip_port) bs ≠ bs.length := by
        simpa using h1
      obtain ⟨l1, b, l2, hl, -, hb⟩ := find_if_split _ bs h2
      exact ⟨b, by simp [hl], hb⟩
    · intro h a ha
      obtain ⟨b, hb, hab⟩ := h a ha
      have h2 : find_if (fun b => Same mode a.ip_port b.ip_port) bs ≠ bs.length := by
        intro hlen
        have := (find_if_eq_length_iff _ bs).mp hlen b hb
        simp only [] at this
        rw [hab] at this
        exact Bool.noConfusion this
      simpa using h2
  unfold SameList
  rw [← hloop xs ys, ← hloop ys xs]
  cases h1 : xs.any (fun a =>
      find_if (fun b => Same mode a.ip_port b.ip_port) ys == ys.length) <;>
    cases h2 : ys.any (fun a =>
      find_if (fun b => Same mode a.ip_port b.ip_port) xs == xs.length) <;>
    simp

/-! ## Claims -/

/-- C1: an accepted IAmHere packet `p` arriving from an endpoint whose first matching entry
under the same-peer mode is `e` replaces `e` in place by an entry `e2` with the same endpoint
and `last_updated = now`; when `p.snapshot_index ≤ e.last_received_packet` the user data and
`last_received_packet` of `e` are kept, when `p.snapshot_index > e.last_received_packet` they
become `p.user_data` and `p.snapshot_index`.  Nothing else in the state changes. -/
theorem C1_iamhere_refreshes_first_match (Parse : Bytes → ProtocolVersion × Packet)
    (env : PeerEnv) (now : Int) (from_ : IpPort) (buffer : Bytes)
    (v : ProtocolVersion) (p : Packet)
    (l1 : List DiscoveredPeer) (e : DiscoveredPeer) (l2 : List DiscoveredPeer)
    (hparse : Parse buffer = (v, p))
    (hacc : Accepted env v p)
    (htype : p.packet_type = kPacketIAmHere)
    (htable : env.discovered_peers_ = l1 ++ e :: l2)
    (hfirst : ∀ x ∈ l1, Same env.parameters_.same_peer_mode x.ip_port from_ = false)
    (hmatch : Same env.parameters_.same_peer_mode e.ip_port from_ = true) :
    ∃ e2 : DiscoveredPeer,
      processReceivedBuffer Parse env now from_ buffer =
        { env with discovered_peers_ := l1 ++ e2 :: l2 } ∧
      e2.ip_port = e.ip_port ∧
      e2.last_updated = now ∧
      (p.snapshot_index ≤ e.last_received_packet →
        e2.user_data = e.user_data ∧ e2.last_received_packet = e.last_received_packet) ∧
      (p.snapshot_index > e.last_received_packet →
        e2.user_data = p.user_data ∧ e2.last_received_packet = p.snapshot_index) := by
  have hv : (Parse buffer).1 = v := by rw [hparse]
  have hp : (Parse buffer).2 = p := by rw [hparse]
  have key := processReceivedBuffer_iamhere_existing Parse env now from_ buffer l1 e l2
    (by rw [hv, hp]; exact hacc) (by rw [hp]; exact htype) htable hfirst hmatch
  rw [hp] at key
  refine ⟨_, key, rfl, rfl, ?_, ?_⟩
  · intro hle
    have hnot : ¬ e.last_received_packet < p.snapshot_index := by omega
    simp [hnot]
  · intro hgt
    have hlt : e.last_received_packet < p.snapshot_index := hgt
    simp [hlt]

/-- Instance of C1: the datagram `sampleIAmHere` (snapshot index 3) arrives from the second
tracked peer of `sampleEnv`, whose stored index is 2. -/
theorem C1_iamhere_refreshes_first_match_witness :
    ∃ e2 : DiscoveredPeer,
      processReceivedBuffer Packet.Parse sampleEnv 900 { ip := 167772162, port := 5000 }
          sampleIAmHere =
        { sampleEnv with discovered_peers_ :=
            [{ ip_port := { ip := 167772161, port := 5000 }, user_data := [97],
               last_received_packet := 5, last_updated := 100 }] ++ e2 :: [] } ∧
      e2.ip_port = { ip := 167772162, port := 5000 } ∧
      e2.last_updated = 900 ∧
      (3 ≤ 2 → e2.user_data = [98] ∧ e2.last_received_packet = 2) ∧
      (3 > 2 → e2.user_data = [104, 105] ∧ e2.last_received_packet = 3) :=
  C1_iamhere_refreshes_first_match Packet.Parse sampleEnv 900
    { ip := 167772162, port := 5000 } sampleIAmHere 1
    { packet_type := 0, application_id := 7, peer_id := 9, snapshot_index := 3,
      user_data := [104, 105] }
    [{ ip_port := { ip := 167772161, port := 5000 }, user_data := [97],
       last_received_packet := 5, last_updated := 100 }]
    { ip_port := { ip := 167772162, port := 5000 }, user_data := [98],
      last_received_packet := 2, last_updated := 200 }
    [] (by decide) (by decide) (by decide) (by decide) (by decide) (by decide)

/-- C2: take an identity `id0` without an entry in the table and any execution
(`processReceivedBuffer` with any endpoint and any buffer, `deleteIdle`, `sendPacket`,
`SetUserData`, in any order) in which the entry of the identity is never evicted by
`deleteIdle` and never removed by an accepted IAmOutOfHere, and in which at least one
accepted IAmHere arrives from the identity.  Afterwards the identity has an entry; its
`last_received_packet` is the greatest snapshot index among the accepted IAmHere packets of
the identity, and its user data is that of the earliest of them carrying this index.  Along
the execution the stored `last_received_packet` never decreases. -/
theorem C2_entry_records_highest_snapshot (Parse : Bytes → ProtocolVersion × Packet)
    (Serialize : Packet → ProtocolVersion → Option Bytes) (env : PeerEnv) (id0 : IpPort)
    (evs : List Event)
    (hstart : ∀ x ∈ env.discovered_peers_,
      Same env.parameters_.same_peer_mode x.ip_port id0 = false)
    (hkeep : never_removed Parse Serialize id0 env evs = true)
    (hne : packets_from Parse env id0 evs ≠ []) :
    (∃ e, entry_for env.parameters_.same_peer_mode id0
          (run Parse Serialize env evs).discovered_peers_ = some e ∧
        RecordsHighest e (packets_from Parse env id0 evs) ∧
        (∀ x ∈ packets_from Parse env id0 evs,
          x.snapshot_index ≤ e.last_received_packet) ∧
        (∃ q ∈ packets_from Parse env id0 evs,
          e.last_received_packet = q.snapshot_index)) ∧
    (∀ (evs1 evs2 evs3 : List Event) (e1 e2 : DiscoveredPeer),
      evs = evs1 ++ evs2 ++ evs3 →
      entry_for env.parameters_.same_peer_mode id0
        (run Parse Serialize env evs1).discovered_peers_ = some e1 →
      entry_for env.parameters_.same_peer_mode id0
        (run Parse Serialize env (evs1 ++ evs2)).discovered_peers_ = some e2 →
      e1.last_received_packet ≤ e2.last_received_packet) := by
  have hinit : Tracks env.parameters_.same_peer_mode id0 env.discovered_peers_ [] :=
    Or.inl ⟨rfl, (entry_for_eq_none_iff _ _ _).mpr hstart⟩
  have hprefix : ∀ (pre post : List Event) (e : DiscoveredPeer), evs = pre ++ post →
      entry_for env.parameters_.same_peer_mode id0
        (run Parse Serialize env pre).discovered_peers_ = some e →
      RecordsHighest e (packets_from Parse env id0 pre) := by
    intro pre post e hsplit hsome
    have hk : never_removed Parse Serialize id0 env pre = true := by
      rw [hsplit, never_removed_append, Bool.and_eq_true] at hkeep
      exact hkeep.1
    have ht := run_Tracks Parse Serialize id0 pre env [] hinit hk
    rw [List.nil_append] at ht
    rcases ht with ⟨-, hnone⟩ | ⟨e2, hsome2, hrec⟩
    · rw [hnone] at hsome
      exact Option.noConfusion hsome
    · rw [hsome2] at hsome
      rw [← Option.some.inj hsome]
      exact hrec
  constructor
  · have ht := run_Tracks Parse Serialize id0 evs env [] hinit hkeep
    rw [List.nil_append] at ht
    rcases ht with ⟨hnil, -⟩ | ⟨e, hsome, hrec⟩
    · exact absurd hnil hne
    · have hb := RecordsHighest_bounds e _ hrec
      exact ⟨e, hsome, hrec, hb.1, hb.2⟩
  · intro evs1 evs2 evs3 e1 e2 hsplit h1 h2
    have hr1 := hprefix evs1 (evs2 ++ evs3) e1 (by rw [hsplit, List.append_assoc]) h1
    have hr2 := hprefix (evs1 ++ evs2) evs3 e2 hsplit h2
    obtain ⟨q, hq, hidx⟩ := (RecordsHighest_bounds e1 _ hr1).2
    rw [hidx]
    apply (RecordsHighest_bounds e2 _ hr2).1
    rw [packets_from_append]
    exact List.mem_append_left _ hq

/-- Instance of C2: in `sampleReordered` the peer at 10.0.0.1:5000 is heard with the indices
3, 5, 4, 3, next to datagrams from the same endpoint that the receiver drops (among them
V0 datagrams with index 9); its entry ends with index 5 and the user data "yo" of the
packet that carried it. -/
theorem C2_entry_records_highest_snapshot_witness :
    (packets_from Packet.Parse sampleFresh { ip := 167772161, port := 5000 }
        sampleReordered).map Packet.snapshot_index = [3, 5, 4, 3] ∧
    entry_for sampleFresh.parameters_.same_peer_mode { ip := 167772161, port := 5000 }
        (run Packet.Parse Packet.Serialize sampleFresh sampleReordered).discovered_peers_ =
      some { ip_port := { ip := 167772161, port := 5000 }, user_data := [121, 111],
             last_received_packet := 5, last_updated := 10040 } ∧
    (∃ e, entry_for sampleFresh.parameters_.same_peer_mode { ip := 167772161, port := 5000 }
          (run Packet.Parse Packet.Serialize sampleFresh sampleReordered).discovered_peers_ =
          some e ∧
        RecordsHighest e (packets_from Packet.Parse sampleFresh
          { ip := 167772161, port := 5000 } sampleReordered) ∧
        (∀ x ∈ packets_from Packet.Parse sampleFresh
            { ip := 167772161, port := 5000 } sampleReordered,
          x.snapshot_index ≤ e.last_received_packet) ∧
        (∃ q ∈ packets_from Packet.Parse sampleFresh
            { ip := 167772161, port := 5000 } sampleReordered,
          e.last_received_packet = q.snapshot_index)) :=
  ⟨by decide, by decide,
    (C2_entry_records_highest_snapshot Packet.Parse Packet.Serialize sampleFresh
      { ip := 167772161, port := 5000 } sampleReordered
      (by decide) (by decide) (by decide)).1⟩

/-- C4: when the parsed version is Unknown, or lies outside the supported range, or the
application id of the packet is not the configured one, or `discover_self` is off and the
packet carries our own peer id, `processReceivedBuffer` returns the state it was given: the
table (and every other field) is unchanged. -/
theorem C4_rejected_packet_leaves_table (Parse : Bytes → ProtocolVersion × Packet)
    (env : PeerEnv) (now : Int) (from_ : IpPort) (buffer : Bytes)
    (v : ProtocolVersion) (p : Packet)
    (hparse : Parse buffer = (v, p))
    (hrej : v = kProtocolVersionUnknown ∨
      v < env.parameters_.min_supported_protocol_version ∨
      env.parameters_.max_supported_protocol_version < v ∨
      p.application_id ≠ env.parameters_.application_id ∨
      (env.parameters_.discover_self = false ∧ p.peer_id = env.peer_id_)) :
    (processReceivedBuffer Parse env now from_ buffer).discovered_peers_ =
        env.discovered_peers_ ∧
      processReceivedBuffer Parse env now from_ buffer = env := by
  have hv : (Parse buffer).1 = v := by rw [hparse]
  have hp : (Parse buffer).2 = p := by rw [hparse]
  have hnot : ¬ Accepted env (Parse buffer).1 (Parse buffer).2 := by
    rw [hv, hp]
    rintro ⟨h1, h2, h3, h4, h5⟩
    rcases hrej with h | h | h | h | ⟨h, h6⟩
    · exact h1 h
    · exact Nat.not_le.mpr h h2
    · exact Nat.not_le.mpr h h3
    · exact h h4
    · exact h5 h h6
  have key := processReceivedBuffer_rejected Parse env now from_ buffer hnot
  exact ⟨by rw [key], key⟩

/-- Instance of C4: a well-formed V1 IAmHere of application 8 reaches a receiver of
application 7. -/
theorem C4_rejected_packet_leaves_table_witness :
    (processReceivedBuffer Packet.Parse sampleEnv 900 { ip := 167772163, port := 5000 }
        sampleForeignApp).discovered_peers_ = sampleEnv.discovered_peers_ ∧
      processReceivedBuffer Packet.Parse sampleEnv 900 { ip := 167772163, port := 5000 }
        sampleForeignApp = sampleEnv :=
  C4_rejected_packet_leaves_table Packet.Parse sampleEnv 900
    { ip := 167772163, port := 5000 } sampleForeignApp 1
    { packet_type := 0, application_id := 8, peer_id := 9, snapshot_index := 3,
      user_data := [104, 105] }
    (by decide) (Or.inr (Or.inr (Or.inr (Or.inl (by decide)))))

/-- C5: `deleteIdle(now)` leaves exactly the entries with `now - last_updated ≤ ttl`, as the
sub-list of the previous table (same relative order, entries untouched); no remaining entry
has `now - last_updated > ttl`, every previous entry within the TTL remains, and no other
field of the state changes. -/
theorem C5_deleteIdle_keeps_fresh_entries (env : PeerEnv) (now : Int) :
    (deleteIdle env now).discovered_peers_ =
        env.discovered_peers_.filter
          (fun e => decide (now - e.last_updated ≤ env.parameters_.discovered_peer_ttl_ms)) ∧
      List.Sublist (deleteIdle env now).discovered_peers_ env.discovered_peers_ ∧
      (∀ e ∈ (deleteIdle env now).discovered_peers_,
        ¬ (now - e.last_updated > env.parameters_.discovered_peer_ttl_ms)) ∧
      (∀ e ∈ env.discovered_peers_,
        now - e.last_updated ≤ env.parameters_.discovered_peer_ttl_ms →
          e ∈ (deleteIdle env now).discovered_peers_) ∧
      deleteIdle env now =
        { env with discovered_peers_ := (deleteIdle env now).discovered_peers_ } := by
  have hfilter : (deleteIdle env now).discovered_peers_ =
      env.discovered_peers_.filter
        (fun e => decide (now - e.last_updated ≤ env.parameters_.discovered_peer_ttl_ms)) := by
    unfold deleteIdle
    simp only []
    congr 1
    funext e
    by_cases h : now - e.last_updated ≤ env.parameters_.discovered_peer_ttl_ms
    · have h2 : ¬ (now - e.last_updated > env.parameters_.discovered_peer_ttl_ms) := by
        omega
      simp only [h, h2, decide_True, decide_False, Bool.not_false]
    · have h2 : now - e.last_updated > env.parameters_.discovered_peer_ttl_ms := by omega
      simp only [h, h2, decide_True, decide_False, Bool.not_true]
  refine ⟨hfilter, ?_, ?_, ?_, rfl⟩
  · rw [hfilter]
    exact List.filter_sublist _
  · intro e he
    rw [hfilter] at he
    have := (List.mem_filter.mp he).2
    simp at this
    omega
  · intro e he hle
    rw [hfilter]
    exact List.mem_filter.mpr ⟨he, by simpa using hle⟩

/-- C6: an accepted IAmHere packet `p` arriving from an endpoint `from_` that matches no
entry appends exactly one entry (endpoint `from_`, user data and snapshot index of `p`,
`last_updated = now`) behind the unchanged previous table; nothing else changes. -/
theorem C6_iamhere_appends_new_entry (Parse : Bytes → ProtocolVersion × Packet)
    (env : PeerEnv) (now : Int) (from_ : IpPort) (buffer : Bytes)
    (v : ProtocolVersion) (p : Packet)
    (hparse : Parse buffer = (v, p))
    (hacc : Accepted env v p)
    (htype : p.packet_type = kPacketIAmHere)
    (hnone : ∀ x ∈ env.discovered_peers_,
      Same env.parameters_.same_peer_mode x.ip_port from_ = false) :
    (processReceivedBuffer Parse env now from_ buffer).discovered_peers_ =
        env.discovered_peers_ ++
          [{ ip_port := from_, user_data := p.user_data,
             last_received_packet := p.snapshot_index, last_updated := now }] ∧
      processReceivedBuffer Parse env now from_ buffer =
        { env with discovered_peers_ :=
            (processReceivedBuffer Parse env now from_ buffer).discovered_peers_ } := by
  have hv : (Parse buffer).1 = v := by rw [hparse]
  have hp : (Parse buffer).2 = p := by rw [hparse]
  have key := processReceivedBuffer_iamhere_new Parse env now from_ buffer
    (by rw [hv, hp]; exact hacc) (by rw [hp]; exact htype) hnone
  rw [hp] at key
  rw [key]
  exact ⟨rfl, rfl⟩

/-- Instance of C6: `sampleIAmHere` arrives from an endpoint that `sampleEnv` does not
track yet. -/
theorem C6_iamhere_appends_new_entry_witness :
    (processReceivedBuffer Packet.Parse sampleEnv 900 { ip := 167772163, port := 5000 }
        sampleIAmHere).discovered_peers_ =
        sampleEnv.discovered_peers_ ++
          [{ ip_port := { ip := 167772163, port := 5000 }, user_data := [104, 105],
             last_received_packet := 3, last_updated := 900 }] ∧
      processReceivedBuffer Packet.Parse sampleEnv 900 { ip := 167772163, port := 5000 }
          sampleIAmHere =
        { sampleEnv with discovered_peers_ :=
            (processReceivedBuffer Packet.Parse sampleEnv 900
              { ip := 167772163, port := 5000 } sampleIAmHere).discovered_peers_ } :=
  C6_iamhere_appends_new_entry Packet.Parse sampleEnv 900
    { ip := 167772163, port := 5000 } sampleIAmHere 1
    { packet_type := 0, application_id := 7, peer_id := 9, snapshot_index := 3,
      user_data := [104, 105] }
    (by decide) (by decide) (by decide) (by decide)

/-- C7: for an accepted IAmOutOfHere packet arriving from `from_`: if some entry matches
`from_` under the same-peer mode, the table splits as `l1 ++ e :: l2` with `e` its first
match and `processReceivedBuffer` leaves `l1 ++ l2` (only `e` is removed, the others keep
their values and order), after which no entry matches `from_` provided the table had one
entry per identity; if no entry matches, the state is unchanged. -/
theorem C7_iamoutofhere_erases_first_match (Parse : Bytes → ProtocolVersion × Packet)
    (env : PeerEnv) (now : Int) (from_ : IpPort) (buffer : Bytes)
    (v : ProtocolVersion) (p : Packet)
    (hparse : Parse buffer = (v, p))
    (hacc : Accepted env v p)
    (htype : p.packet_type = kPacketIAmOutOfHere) :
    ((∃ x ∈ env.discovered_peers_,
        Same env.parameters_.same_peer_mode x.ip_port from_ = true) →
      ∃ l1 e l2, env.discovered_peers_ = l1 ++ e :: l2 ∧
        (∀ x ∈ l1, Same env.parameters_.same_peer_mode x.ip_port from_ = false) ∧
        Same env.parameters_.same_peer_mode e.ip_port from_ = true ∧
        processReceivedBuffer Parse env now from_ buffer =
          { env with discovered_peers_ := l1 ++ l2 } ∧
        (OnePerIdentity env.parameters_.same_peer_mode env.discovered_peers_ →
          ∀ x ∈ (processReceivedBuffer Parse env now from_ buffer).discovered_peers_,
            Same env.parameters_.same_peer_mode x.ip_port from_ = false)) ∧
    ((∀ x ∈ env.discovered_peers_,
        Same env.parameters_.same_peer_mode x.ip_port from_ = false) →
      processReceivedBuffer Parse env now from_ buffer = env) := by
  have hv : (Parse buffer).1 = v := by rw [hparse]
  have hp : (Parse buffer).2 = p := by rw [hparse]
  constructor
  · intro hex
    obtain ⟨l1, e, l2, htable, hfirst, hmatch⟩ := find_if_split_of_exists
      (fun peer => Same env.parameters_.same_peer_mode peer.ip_port from_)
      env.discovered_peers_ hex
    have key := processReceivedBuffer_iamoutofhere_existing Parse env now from_ buffer
      l1 e l2 (by rw [hv, hp]; exact hacc) (by rw [hp]; exact htype) htable hfirst hmatch
    refine ⟨l1, e, l2, htable, hfirst, hmatch, key, ?_⟩
    intro hinv
    rw [key]
    rw [htable] at hinv
    exact OnePerIdentity_no_match_after_erase _ from_ l1 e l2 hinv hfirst hmatch
  · intro hnone
    apply processReceivedBuffer_not_iamhere_absent Parse env now from_ buffer _ hnone
    rw [hp, htype]
    decide

/-- Instance of C7: `sampleIAmOutOfHere` arrives from the first tracked peer of
`sampleEnv`, and from an endpoint that is not tracked. -/
theorem C7_iamoutofhere_erases_first_match_witness :
    (∃ l1 e l2, sampleEnv.discovered_peers_ = l1 ++ e :: l2 ∧
        (∀ x ∈ l1, Same sampleEnv.parameters_.same_peer_mode x.ip_port
          { ip := 167772161, port := 5000 } = false) ∧
        Same sampleEnv.parameters_.same_peer_mode e.ip_port
          { ip := 167772161, port := 5000 } = true ∧
        processReceivedBuffer Packet.Parse sampleEnv 900 { ip := 167772161, port := 5000 }
            sampleIAmOutOfHere =
          { sampleEnv with discovered_peers_ := l1 ++ l2 } ∧
        (OnePerIdentity sampleEnv.parameters_.same_peer_mode sampleEnv.discovered_peers_ →
          ∀ x ∈ (processReceivedBuffer Packet.Parse sampleEnv 900
              { ip := 167772161, port := 5000 } sampleIAmOutOfHere).discovered_peers_,
            Same sampleEnv.parameters_.same_peer_mode x.ip_port
              { ip := 167772161, port := 5000 } = false)) ∧
      processReceivedBuffer Packet.Parse sampleEnv 900 { ip := 167772163, port := 5000 }
        sampleIAmOutOfHere = sampleEnv :=
  ⟨(C7_iamoutofhere_erases_first_match Packet.Parse sampleEnv 900
      { ip := 167772161, port := 5000 } sampleIAmOutOfHere 1
      { packet_type := 1, application_id := 7, peer_id := 9, snapshot_index := 4,
        user_data := [] }
      (by decide) (by decide) (by decide)).1 (by decide),
   (C7_iamoutofhere_erases_first_match Packet.Parse sampleEnv 900
      { ip := 167772163, port := 5000 } sampleIAmOutOfHere 1
      { packet_type := 1, application_id := 7, peer_id := 9, snapshot_index := 4,
        user_data := [] }
      (by decide) (by decide) (by decide)).2 (by decide)⟩

/-- C8: `Same(mode, xs, ys)` on lists is true exactly when every endpoint of `xs` is `Same`
as some endpoint of `ys` and every endpoint of `ys` is `Same` as some endpoint of `xs`;
it is reflexive and symmetric; and it depends only on the sets of endpoints of the two
lists, not on user data, snapshot indices, timestamps, order or repetitions. -/
theorem C8_SameList_is_endpoint_set_equivalence (mode : SamePeerMode)
    (xs ys xs2 ys2 : List DiscoveredPeer) :
    (SameList mode xs ys = true ↔
      (∀ x ∈ xs, ∃ y ∈ ys, Same mode x.ip_port y.ip_port = true) ∧
      (∀ y ∈ ys, ∃ x ∈ xs, Same mode y.ip_port x.ip_port = true)) ∧
    SameList mode xs xs = true ∧
    SameList mode xs ys = SameList mode ys xs ∧
    ((∀ a : IpPort, a ∈ xs.map DiscoveredPeer.ip_port ↔ a ∈ xs2.map DiscoveredPeer.ip_port) →
      (∀ a : IpPort, a ∈ ys.map DiscoveredPeer.ip_port ↔ a ∈ ys2.map DiscoveredPeer.ip_port) →
      SameList mode xs ys = SameList mode xs2 ys2) := by
  have hdir : ∀ as as2 bs bs2 : List DiscoveredPeer,
      (∀ a : IpPort, a ∈ as.map DiscoveredPeer.ip_port ↔
        a ∈ as2.map DiscoveredPeer.ip_port) →
      (∀ a : IpPort, a ∈ bs.map DiscoveredPeer.ip_port ↔
        a ∈ bs2.map DiscoveredPeer.ip_port) →
      (∀ x ∈ as, ∃ y ∈ bs, Same mode x.ip_port y.ip_port = true) →
      ∀ x ∈ as2, ∃ y ∈ bs2, Same mode x.ip_port y.ip_port = true := by
    intro as as2 bs bs2 has hbs h x hx
    obtain ⟨x1, hx1, hx1e⟩ := List.mem_map.mp
      ((has x.ip_port).mpr (List.mem_map.mpr ⟨x, hx, rfl⟩))
    obtain ⟨y1, hy1, hxy⟩ := h x1 hx1
    obtain ⟨y2, hy2, hy2e⟩ := List.mem_map.mp
      ((hbs y1.ip_port).mp (List.mem_map.mpr ⟨y1, hy1, rfl⟩))
    exact ⟨y2, hy2, by rw [← hx1e, hy2e]; exact hxy⟩
  refine ⟨SameList_eq_true_iff mode xs ys, ?_, ?_, ?_⟩
  · rw [SameList_eq_true_iff]
    exact ⟨fun x hx => ⟨x, hx, Same_refl mode _⟩, fun x hx => ⟨x, hx, Same_refl mode _⟩⟩
  · rw [Bool.eq_iff_iff, SameList_eq_true_iff, SameList_eq_true_iff]
    exact And.comm
  · intro hxs hys
    rw [Bool.eq_iff_iff, SameList_eq_true_iff, SameList_eq_true_iff]
    constructor
    · rintro ⟨h1, h2⟩
      exact ⟨hdir xs xs2 ys ys2 hxs hys h1, hdir ys ys2 xs xs2 hys hxs h2⟩
    · rintro ⟨h1, h2⟩
      exact ⟨hdir xs2 xs ys2 ys (fun a => (hxs a).symm) (fun a => (hys a).symm) h1,
        hdir ys2 ys xs2 xs (fun a => (hys a).symm) (fun a => (hxs a).symm) h2⟩

/-- C3: with the same-peer mode fixed in the configuration, starting from the empty table,
after every finite sequence of calls (`processReceivedBuffer` with any source endpoint and
any buffer, `deleteIdle`, and also `sendPacket` and `SetUserData`) the configuration is
still the same and no two entries at distinct positions of `discovered_peers_` have
endpoints that are `Same` under that mode. -/
theorem C3_one_entry_per_identity (Parse : Bytes → ProtocolVersion × Packet)
    (Serialize : Packet → ProtocolVersion → Option Bytes) (env : PeerEnv)
    (evs : List Event) (hempty : env.discovered_peers_ = []) :
    (run Parse Serialize env evs).parameters_ = env.parameters_ ∧
    OnePerIdentity env.parameters_.same_peer_mode
      (run Parse Serialize env evs).discovered_peers_ ∧
    ∀ (i j : Nat) (hi : i < (run Parse Serialize env evs).discovered_peers_.length)
      (hj : j < (run Parse Serialize env evs).discovered_peers_.length), i ≠ j →
      Same env.parameters_.same_peer_mode
        ((run Parse Serialize env evs).discovered_peers_[i]).ip_port
        ((run Parse Serialize env evs).discovered_peers_[j]).ip_port = false := by
  have hinv : OnePerIdentity env.parameters_.same_peer_mode
      (run Parse Serialize env evs).discovered_peers_ := by
    apply run_OnePerIdentity
    rw [hempty]
    exact List.Pairwise.nil
  refine ⟨run_parameters Parse Serialize evs env, hinv, ?_⟩
  intro i j hi hj hij
  have hpair := List.pairwise_iff_getElem.mp hinv
  rcases Nat.lt_or_gt_of_ne hij with h | h
  · exact hpair i j hi hj h
  · rw [Same_symm]
    exact hpair j i hj hi h

/-- Instance of C3: the execution `sampleExecution` of the freshly started `sampleFresh`. -/
theorem C3_one_entry_per_identity_witness :
    sampleFresh.discovered_peers_ = [] ∧
    (run Packet.Parse Packet.Serialize sampleFresh sampleExecution).parameters_ =
      sampleFresh.parameters_ ∧
    OnePerIdentity sampleFresh.parameters_.same_peer_mode
      (run Packet.Parse Packet.Serialize sampleFresh sampleExecution).discovered_peers_ ∧
    ∀ (i j : Nat)
      (hi : i < (run Packet.Parse Packet.Serialize sampleFresh
        sampleExecution).discovered_peers_.length)
      (hj : j < (run Packet.Parse Packet.Serialize sampleFresh
        sampleExecution).discovered_peers_.length), i ≠ j →
      Same sampleFresh.parameters_.same_peer_mode
        ((run Packet.Parse Packet.Serialize sampleFresh
          sampleExecution).discovered_peers_[i]).ip_port
        ((run Packet.Parse Packet.Serialize sampleFresh
          sampleExecution).discovered_peers_[j]).ip_port = false :=
  ⟨rfl, C3_one_entry_per_identity Packet.Parse Packet.Serialize sampleFresh sampleExecution
    rfl⟩

/-- C9, refuted as stated: in a run of `2 ^ 64 + 1` calls of `sendPacket` from a counter at
zero, the packet number `2 ^ 64` carries `2 ^ 64 - 1` and the next one, number `2 ^ 64 + 1`,
carries `0`: it does not carry `2 ^ 64`, and the indices of these two successive packets
are not increasing. -/
theorem C9_counterexample_counter_wraps :
    ∃ a b : Packet,
      (built Packet.Parse Packet.Serialize sampleFresh
        (List.replicate (2 ^ 64 + 1) (Event.send false 1 0)))[2 ^ 64 - 1]? = some a ∧
      (built Packet.Parse Packet.Serialize sampleFresh
        (List.replicate (2 ^ 64 + 1) (Event.send false 1 0)))[2 ^ 64]? = some b ∧
      a.snapshot_index = 2 ^ 64 - 1 ∧ b.snapshot_index = 0 ∧
      b.snapshot_index ≠ 2 ^ 64 ∧ ¬ (a.snapshot_index < b.snapshot_index) := by
  have hlen := built_replicate_send_length Packet.Parse Packet.Serialize false 1 0
    (2 ^ 64 + 1) sampleFresh
  have h0 : sampleFresh.packet_index_ = 0 := rfl
  have ha : 2 ^ 64 - 1 < (built Packet.Parse Packet.Serialize sampleFresh
      (List.replicate (2 ^ 64 + 1) (Event.send false 1 0))).length := by
    rw [hlen]; norm_num
  have hb : 2 ^ 64 < (built Packet.Parse Packet.Serialize sampleFresh
      (List.replicate (2 ^ 64 + 1) (Event.send false 1 0))).length := by
    rw [hlen]; norm_num
  have hia := built_snapshot_index Packet.Parse Packet.Serialize _ sampleFresh (2 ^ 64 - 1) _
    (by rw [h0]; norm_num) (List.getElem?_eq_getElem ha)
  have hib := built_snapshot_index Packet.Parse Packet.Serialize _ sampleFresh (2 ^ 64) _
    (by rw [h0]; norm_num) (List.getElem?_eq_getElem hb)
  rw [h0] at hia hib
  have hia2 := hia.trans (show (0 + (2 ^ 64 - 1)) % 2 ^ 64 = 2 ^ 64 - 1 by norm_num)
  have hib2 := hib.trans (show (0 + 2 ^ 64) % 2 ^ 64 = 0 by norm_num)
  refine ⟨_, _, List.getElem?_eq_getElem ha, List.getElem?_eq_getElem hb, hia2, hib2, ?_, ?_⟩
  · rw [hib2]; norm_num
  · rw [hia2, hib2]; norm_num

/-- C9, amended: every call of `sendPacket` builds a packet whose snapshot index is the value
of `packet_index_` before the call and leaves `packet_index_` increased by one modulo
`2 ^ 64`, for every packet type, protocol version and encoder outcome; hence, in any
execution that starts with `packet_index_ = 0`, the packet at position `k` (counting from
zero) carries `k mod 2 ^ 64`, and of two successive packets the second carries the index of
the first plus one as long as `k + 1 < 2 ^ 64`. -/
theorem C9_snapshot_index_counts_packets (Parse : Bytes → ProtocolVersion × Packet)
    (Serialize : Packet → ProtocolVersion → Option Bytes) (env : PeerEnv)
    (under_lock : Bool) (protocol_version : ProtocolVersion) (packet_type : PacketType)
    (evs : List Event) :
    (sendPacket Serialize env under_lock protocol_version packet_type).2.1.snapshot_index =
      env.packet_index_ ∧
    (sendPacket Serialize env under_lock protocol_version packet_type).1.packet_index_ =
      (env.packet_index_ + 1) % 2 ^ 64 ∧
    (env.packet_index_ = 0 →
      ∀ (k : Nat) (pkt : Packet), (built Parse Serialize env evs)[k]? = some pkt →
        pkt.snapshot_index = k % 2 ^ 64) ∧
    (env.packet_index_ = 0 →
      ∀ (k : Nat) (a b : Packet), (built Parse Serialize env evs)[k]? = some a →
        (built Parse Serialize env evs)[k + 1]? = some b → k + 1 < 2 ^ 64 →
        a.snapshot_index < b.snapshot_index ∧ b.snapshot_index = a.snapshot_index + 1) := by
  have hone := sendPacket_eq Serialize env under_lock protocol_version packet_type
  have hseq : env.packet_index_ = 0 →
      ∀ (k : Nat) (pkt : Packet), (built Parse Serialize env evs)[k]? = some pkt →
        pkt.snapshot_index = k % 2 ^ 64 := by
    intro h0 k pkt hk
    have := built_snapshot_index Parse Serialize evs env k pkt (by rw [h0]; norm_num) hk
    rw [h0, Nat.zero_add] at this
    exact this
  refine ⟨by rw [hone.2], by rw [hone.1], hseq, ?_⟩
  intro h0 k a b ha hb hk
  rw [hseq h0 k a ha, hseq h0 (k + 1) b hb]
  rw [Nat.mod_eq_of_lt hk, Nat.mod_eq_of_lt (by omega)]
  omega

/-- Instance of C9: the three packets built during `sampleExecution`, the last one a
farewell, carry the indices 0, 1 and 2. -/
theorem C9_snapshot_index_counts_packets_witness :
    sampleFresh.packet_index_ = 0 ∧
    (built Packet.Parse Packet.Serialize sampleFresh sampleExecution).map
      Packet.snapshot_index = [0, 1, 2] ∧
    (∀ (k : Nat) (pkt : Packet),
      (built Packet.Parse Packet.Serialize sampleFresh sampleExecution)[k]? = some pkt →
        pkt.snapshot_index = k % 2 ^ 64) :=
  ⟨rfl, by decide,
    (C9_snapshot_index_counts_packets Packet.Parse Packet.Serialize sampleFresh false 1 0
      sampleExecution).2.2.1 rfl⟩

/-- C10: two accepted IAmHere packets (whatever their peer ids, equal ones included) that
arrive from endpoints which are not `Same` under the configured mode leave, after both
calls, entries at two distinct positions of the table, one matching the first endpoint and
one matching the second; and an accepted packet that differs from the first one in its
peer id only produces the same state as the first one. -/
theorem C10_peer_id_does_not_merge_endpoints (Parse : Bytes → ProtocolVersion × Packet)
    (env : PeerEnv) (now1 now2 : Int) (from1 from2 : IpPort) (buffer1 buffer2 buffer3 : Bytes)
    (v1 v2 v3 : ProtocolVersion) (p1 p2 p3 : Packet)
    (hparse1 : Parse buffer1 = (v1, p1)) (hacc1 : Accepted env v1 p1)
    (htype1 : p1.packet_type = kPacketIAmHere)
    (hparse2 : Parse buffer2 = (v2, p2)) (hacc2 : Accepted env v2 p2)
    (htype2 : p2.packet_type = kPacketIAmHere)
    (hdiff : Same env.parameters_.same_peer_mode from1 from2 = false)
    (hparse3 : Parse buffer3 = (v3, p3)) (hacc3 : Accepted env v3 p3)
    (honly : p3 = { p1 with peer_id := p3.peer_id }) :
    (∃ (i j : Nat)
      (hi : i < (processReceivedBuffer Parse (processReceivedBuffer Parse env now1 from1
        buffer1) now2 from2 buffer2).discovered_peers_.length)
      (hj : j < (processReceivedBuffer Parse (processReceivedBuffer Parse env now1 from1
        buffer1) now2 from2 buffer2).discovered_peers_.length),
      i ≠ j ∧
      Same env.parameters_.same_peer_mode
        ((processReceivedBuffer Parse (processReceivedBuffer Parse env now1 from1
          buffer1) now2 from2 buffer2).discovered_peers_[i]).ip_port from1 = true ∧
      Same env.parameters_.same_peer_mode
        ((processReceivedBuffer Parse (processReceivedBuffer Parse env now1 from1
          buffer1) now2 from2 buffer2).discovered_peers_[j]).ip_port from2 = true) ∧
    processReceivedBuffer Parse env now1 from1 buffer3 =
      processReceivedBuffer Parse env now1 from1 buffer1 := by
  have hv1 : (Parse buffer1).1 = v1 := by rw [hparse1]
  have hp1 : (Parse buffer1).2 = p1 := by rw [hparse1]
  have hv2 : (Parse buffer2).1 = v2 := by rw [hparse2]
  have hp2 : (Parse buffer2).2 = p2 := by rw [hparse2]
  have hv3 : (Parse buffer3).1 = v3 := by rw [hparse3]
  have hp3 : (Parse buffer3).2 = p3 := by rw [hparse3]
  constructor
  · have hframe := processReceivedBuffer_frame Parse env now1 from1 buffer1
    have hparams : (processReceivedBuffer Parse env now1 from1 buffer1).parameters_ =
        env.parameters_ := by rw [hframe]
    have hid : (processReceivedBuffer Parse env now1 from1 buffer1).peer_id_ =
        env.peer_id_ := by rw [hframe]
    have hacc2b : Accepted (processReceivedBuffer Parse env now1 from1 buffer1)
        (Parse buffer2).1 (Parse buffer2).2 := by
      rw [hv2, hp2]
      exact (Accepted_congr _ env v2 p2 hparams hid).mpr hacc2
    have hfirst := processReceivedBuffer_iamhere_present Parse env now1 from1 buffer1
      (by rw [hv1, hp1]; exact hacc1) (by rw [hp1]; exact htype1)
    have hkept := processReceivedBuffer_keeps_other_match Parse
      (processReceivedBuffer Parse env now1 from1 buffer1) now2 from2 from1 buffer2
      (by rw [hparams]; exact hdiff) (by rw [hparams]; exact hfirst)
    have hsecond := processReceivedBuffer_iamhere_present Parse
      (processReceivedBuffer Parse env now1 from1 buffer1) now2 from2 buffer2
      hacc2b (by rw [hp2]; exact htype2)
    rw [hparams] at hkept hsecond
    obtain ⟨x, hx, hxm⟩ := hkept
    obtain ⟨y, hy, hym⟩ := hsecond
    obtain ⟨i, hi, hxi⟩ := List.getElem_of_mem hx
    obtain ⟨j, hj, hyj⟩ := List.getElem_of_mem hy
    refine ⟨i, j, hi, hj, ?_, by rw [hxi]; exact hxm, by rw [hyj]; exact hym⟩
    intro hij
    subst hij
    rw [hxi] at hyj
    rw [← hyj] at hym
    have h1 : Same env.parameters_.same_peer_mode from1 x.ip_port = true := by
      rw [Same_symm]; exact hxm
    rw [Same_trans _ _ _ _ h1 hym] at hdiff
    exact Bool.noConfusion hdiff
  · apply processReceivedBuffer_accepted_congr
    · rw [hv3, hp3]; exact hacc3
    · rw [hv1, hp1]; exact hacc1
    · rw [hp3, hp1, honly]
    · rw [hp3, hp1, honly]
    · rw [hp3, hp1, honly]

/-- Instance of C10: the same datagram `sampleIAmHere` (peer id 9) arrives from two hosts
that `sampleEnv` does not track yet; `sampleIAmHereOtherId` differs from it in the peer id
only. -/
theorem C10_peer_id_does_not_merge_endpoints_witness :
    (∃ (i j : Nat)
      (hi : i < (processReceivedBuffer Packet.Parse (processReceivedBuffer Packet.Parse
        sampleEnv 900 { ip := 167772163, port := 5000 } sampleIAmHere) 901
        { ip := 167772164, port := 5000 } sampleIAmHere).discovered_peers_.length)
      (hj : j < (processReceivedBuffer Packet.Parse (processReceivedBuffer Packet.Parse
        sampleEnv 900 { ip := 167772163, port := 5000 } sampleIAmHere) 901
        { ip := 167772164, port := 5000 } sampleIAmHere).discovered_peers_.length),
      i ≠ j ∧
      Same sampleEnv.parameters_.same_peer_mode
        ((processReceivedBuffer Packet.Parse (processReceivedBuffer Packet.Parse
          sampleEnv 900 { ip := 167772163, port := 5000 } sampleIAmHere) 901
          { ip := 167772164, port := 5000 } sampleIAmHere).discovered_peers_[i]).ip_port
        { ip := 167772163, port := 5000 } = true ∧
      Same sampleEnv.parameters_.same_peer_mode
        ((processReceivedBuffer Packet.Parse (processReceivedBuffer Packet.Parse
          sampleEnv 900 { ip := 167772163, port := 5000 } sampleIAmHere) 901
          { ip := 167772164, port := 5000 } sampleIAmHere).discovered_peers_[j]).ip_port
        { ip := 167772164, port := 5000 } = true) ∧
    processReceivedBuffer Packet.Parse sampleEnv 900 { ip := 167772163, port := 5000 }
        sampleIAmHereOtherId =
      processReceivedBuffer Packet.Parse sampleEnv 900 { ip := 167772163, port := 5000 }
        sampleIAmHere :=
  C10_peer_id_does_not_merge_endpoints Packet.Parse sampleEnv 900 901
    { ip := 167772163, port := 5000 } { ip := 167772164, port := 5000 }
    sampleIAmHere sampleIAmHere sampleIAmHereOtherId 1 1 1
    { packet_type := 0, application_id := 7, peer_id := 9, snapshot_index := 3,
      user_data := [104, 105] }
    { packet_type := 0, application_id := 7, peer_id := 9, snapshot_index := 3,
      user_data := [104, 105] }
    { packet_type := 0, application_id := 7, peer_id := 10, snapshot_index := 3,
      user_data := [104, 105] }
    (by decide) (by decide) (by decide) (by decide) (by decide) (by decide) (by decide)
    (by decide) (by decide) (by decide)

/-- C11: for a value `v` of an unsigned type of `n` bytes (`v < 2 ^ (8 * n)`; `n` is 1, 2, 4
or 8 in the code, and any `n` here), the serialize direction returns true, keeps `v` and
appends exactly `n` bytes to the buffer, byte `i` being `(v >> 8 * (n - 1 - i)) & 0xff`; and
the parse direction, run at the position where those `n` bytes start (whatever precedes
and follows them), returns true, yields `v` and advances the read position by exactly
`n`. -/
theorem C11_big_endian_round_trip (n v value0 : Nat) (buffer_view : BufferView)
    (pre post : Bytes) (hv : v < 2 ^ (8 * n)) :
    SerializeUnsignedIntegerBigEndian n SerializeDirection.kSerialize v buffer_view =
      some (true, v,
        { buffer_view with buffer_ := buffer_view.buffer_ ++ big_endian_bytes n v }) ∧
    (big_endian_bytes n v).length = n ∧
    (∀ i, i < n →
      (big_endian_bytes n v)[i]? = some ((v >>> (8 * (n - 1 - i))) &&& 0xff)) ∧
    SerializeUnsignedIntegerBigEndian n SerializeDirection.kParse value0
        { buffer_ := pre ++ big_endian_bytes n v ++ post, parsed_ := pre.length } =
      some (true, v,
        { buffer_ := pre ++ big_endian_bytes n v ++ post, parsed_ := pre.length + n }) := by
  refine ⟨SerializeUnsignedIntegerBigEndian_serialize n v buffer_view,
    big_endian_bytes_length n v, ?_, ?_⟩
  · intro i hi
    unfold big_endian_bytes
    rw [List.getElem?_map, List.getElem?_range hi]
    rfl
  · have hcan : pre.length + n ≤ (pre ++ big_endian_bytes n v ++ post).length := by
      simp only [List.length_append, big_endian_bytes_length]
      omega
    have key := SerializeUnsignedIntegerBigEndian_parse n value0
      { buffer_ := pre ++ big_endian_bytes n v ++ post, parsed_ := pre.length } hcan
    have hwindow : ((pre ++ big_endian_bytes n v ++ post).drop pre.length).take n =
        big_endian_bytes n v := by
      rw [List.append_assoc, List.drop_left]
      have := @List.take_left _ (big_endian_bytes n v) post
      rw [big_endian_bytes_length] at this
      exact this
    simp only [hwindow, big_endian_value_bytes, Nat.mod_eq_of_lt hv] at key
    exact key

/-- Instance of C11: the 32-bit value 167772161 (10.0.0.1) is written behind two bytes
already in the buffer and read back from there. -/
theorem C11_big_endian_round_trip_witness :
    SerializeUnsignedIntegerBigEndian 4 SerializeDirection.kSerialize 167772161
        { buffer_ := [1, 0] } =
      some (true, 167772161, { buffer_ := [1, 0, 10, 0, 0, 1] }) ∧
    SerializeUnsignedIntegerBigEndian 4 SerializeDirection.kParse 0
        { buffer_ := [1, 0] ++ big_endian_bytes 4 167772161 ++ [7], parsed_ := 2 } =
      some (true, 167772161,
        { buffer_ := [1, 0] ++ big_endian_bytes 4 167772161 ++ [7], parsed_ := 2 + 4 }) :=
  ⟨by decide,
    (C11_big_endian_round_trip 4 167772161 0 { buffer_ := [1, 0] } [1, 0] [7]
      (by decide)).2.2.2⟩

/-- C12: `IpPort::operator<` is the lexicographic order on (ip, port); it is irreflexive and
transitive; for all `a`, `b` exactly one of `a < b`, `a == b`, `b < a` holds; `operator==`
is componentwise equality and `operator!=` is its negation. -/
theorem C12_IpPort_operators_lexicographic (a b c : IpPort) :
    (a.operator_lt b = true ↔ a.ip < b.ip ∨ (a.ip = b.ip ∧ a.port < b.port)) ∧
    a.operator_lt a = false ∧
    (a.operator_lt b = true → b.operator_lt c = true → a.operator_lt c = true) ∧
    ((a.operator_lt b = true ∧ a.operator_eq b = false ∧ b.operator_lt a = false) ∨
      (a.operator_lt b = false ∧ a.operator_eq b = true ∧ b.operator_lt a = false) ∨
      (a.operator_lt b = false ∧ a.operator_eq b = false ∧ b.operator_lt a = true)) ∧
    (a.operator_eq b = true ↔ a.ip = b.ip ∧ a.port = b.port) ∧
    (a.operator_eq b = true ↔ a = b) ∧
    a.operator_ne b = !a.operator_eq b := by
  have hlt : ∀ x y : IpPort,
      x.operator_lt y = true ↔ x.ip < y.ip ∨ (x.ip = y.ip ∧ x.port < y.port) := by
    intro x y
    unfold IpPort.operator_lt
    by_cases h1 : x.ip < y.ip
    · rw [if_pos h1]
      exact ⟨fun _ => Or.inl h1, fun _ => rfl⟩
    · rw [if_neg h1]
      by_cases h2 : x.ip > y.ip
      · rw [if_pos h2]
        constructor
        · intro h; exact Bool.noConfusion h
        · rintro (h | ⟨h, -⟩) <;> omega
      · rw [if_neg h2, decide_eq_true_eq]
        constructor
        · intro h; exact Or.inr ⟨by omega, h⟩
        · rintro (h | ⟨-, h⟩)
          · omega
          · exact h
  have hlt_false : ∀ x y : IpPort,
      x.operator_lt y = false ↔ ¬ (x.ip < y.ip ∨ (x.ip = y.ip ∧ x.port < y.port)) := by
    intro x y
    rw [← hlt x y]
    simp
  have heq : ∀ x y : IpPort, x.operator_eq y = true ↔ x.ip = y.ip ∧ x.port = y.port := by
    intro x y
    simp [IpPort.operator_eq]
  have heq_false : ∀ x y : IpPort,
      x.operator_eq y = false ↔ ¬ (x.ip = y.ip ∧ x.port = y.port) := by
    intro x y
    rw [← heq x y]
    simp
  refine ⟨hlt a b, ?_, ?_, ?_, heq a b, ?_, rfl⟩
  · rw [hlt_false]
    omega
  · rw [hlt, hlt, hlt]
    omega
  · rw [hlt, hlt, hlt_false, hlt_false, heq, heq_false]
    omega
  · rw [heq]
    constructor
    · rintro ⟨h1, h2⟩
      cases a
      cases b
      simp only [IpPort.mk.injEq]
      exact ⟨h1, h2⟩
    · intro h
      rw [h]
      exact ⟨rfl, rfl⟩

/-- C13: when `can_use_broadcast` and `can_use_multicast` are both false, or `can_discover`
and `can_be_discovered` are both false, `PeerEnv::Start` returns false having only written
a line to `cerr`: no socket is created and `sock_` and `binding_sock_` keep their values
(invalid in the fresh environment that `Peer::Start` builds); `Peer::Start`, called on a
`Peer` with any history of earlier `Start` and `Stop` calls, returns false and leaves the
peer stopped, with `env_` empty and no thread, so that `ListDiscovered` returns the empty
list. -/
theorem C13_start_rejects_bad_flags (os : StartAnswers) (env : PeerEnv)
    (calls : List PeerCall) (parameters : PeerParameters) (user_data : Bytes)
    (hflags : (parameters.can_use_broadcast = false ∧ parameters.can_use_multicast = false) ∨
      (parameters.can_discover = false ∧ parameters.can_be_discovered = false)) :
    ((env.Start os parameters user_data).1 = false ∧
      (env.Start os parameters user_data).2.2 = [StartEffect.cerr] ∧
      (env.Start os parameters user_data).2.1.sock_ = env.sock_ ∧
      (env.Start os parameters user_data).2.1.binding_sock_ = env.binding_sock_) ∧
    ((({} : PeerEnv).Start os parameters user_data).2.1.sock_ = kInvalidSocket ∧
      (({} : PeerEnv).Start os parameters user_data).2.1.binding_sock_ = kInvalidSocket) ∧
    (((Peer.after calls).Start os parameters user_data).1 = false ∧
      ((Peer.after calls).Start os parameters user_data).2.2 = [StartEffect.cerr] ∧
      ((Peer.after calls).Start os parameters user_data).2.1.env_ = none ∧
      ((Peer.after calls).Start os parameters user_data).2.1.sending_thread_ = false ∧
      ((Peer.after calls).Start os parameters user_data).2.1.receiving_thread_ = false ∧
      ((Peer.after calls).Start os parameters user_data).2.1.ListDiscovered = []) := by
  have hstart : ∀ e : PeerEnv, e.Start os parameters user_data =
      (false, { e with parameters_ := parameters, user_data_ := user_data },
        [StartEffect.cerr]) := by
    intro e
    unfold PeerEnv.Start
    rcases hflags with ⟨h1, h2⟩ | ⟨h1, h2⟩
    · simp [h1, h2]
    · by_cases h3 : (!parameters.can_use_broadcast && !parameters.can_use_multicast) = true
      · simp only [h3, if_true]
      · simp only [h3, h1, h2, Bool.not_false, Bool.and_self, if_true, if_false,
          Bool.false_eq_true]
  refine ⟨?_, ?_, ?_⟩
  · rw [hstart env]
    exact ⟨rfl, rfl, rfl, rfl⟩
  · rw [hstart {}]
    exact ⟨rfl, rfl⟩
  · have hpeer : (Peer.after calls).Start os parameters user_data =
        (false, ((Peer.after calls).Stop false).1, [StartEffect.cerr]) := by
      unfold Peer.Start
      simp only [hstart {}, Bool.not_false, if_true]
    have hstopped := Peer.Stop_stopped (Peer.after calls) false
      (Peer.after_no_env_no_thread calls)
    rw [hpeer]
    refine ⟨rfl, rfl, hstopped.1, hstopped.2.1, hstopped.2.2, ?_⟩
    unfold Peer.ListDiscovered
    simp only [hstopped.1]

/-- Instance of C13: a running listener is restarted with broadcast switched off and
multicast left off. -/
theorem C13_start_rejects_bad_flags_witness :
    ((({} : PeerEnv).Start sampleAnswers { can_use_broadcast := false, can_discover := true }
        [104, 105]).1 = false ∧
      (({} : PeerEnv).Start sampleAnswers { can_use_broadcast := false, can_discover := true }
        [104, 105]).2.2 = [StartEffect.cerr] ∧
      (({} : PeerEnv).Start sampleAnswers { can_use_broadcast := false, can_discover := true }
        [104, 105]).2.1.sock_ = kInvalidSocket ∧
      (({} : PeerEnv).Start sampleAnswers { can_use_broadcast := false, can_discover := true }
        [104, 105]).2.1.binding_sock_ = kInvalidSocket) ∧
    (Peer.after [PeerCall.Start sampleAnswers { can_discover := true } []]).env_ ≠ none ∧
    (((Peer.after [PeerCall.Start sampleAnswers { can_discover := true } []]).Start
        sampleAnswers { can_use_broadcast := false, can_discover := true } [104, 105]).1 =
        false ∧
      ((Peer.after [PeerCall.Start sampleAnswers { can_discover := true } []]).Start
        sampleAnswers { can_use_broadcast := false, can_discover := true }
        [104, 105]).2.2 = [StartEffect.cerr] ∧
      ((Peer.after [PeerCall.Start sampleAnswers { can_discover := true } []]).Start
        sampleAnswers { can_use_broadcast := false, can_discover := true }
        [104, 105]).2.1.env_ = none ∧
      ((Peer.after [PeerCall.Start sampleAnswers { can_discover := true } []]).Start
        sampleAnswers { can_use_broadcast := false, can_discover := true }
        [104, 105]).2.1.sending_thread_ = false ∧
      ((Peer.after [PeerCall.Start sampleAnswers { can_discover := true } []]).Start
        sampleAnswers { can_use_broadcast := false, can_discover := true }
        [104, 105]).2.1.receiving_thread_ = false ∧
      ((Peer.after [PeerCall.Start sampleAnswers { can_discover := true } []]).Start
        sampleAnswers { can_use_broadcast := false, can_discover := true }
        [104, 105]).2.1.ListDiscovered = []) :=
  ⟨(C13_start_rejects_bad_flags sampleAnswers {}
      [PeerCall.Start sampleAnswers { can_discover := true } []]
      { can_use_broadcast := false, can_discover := true } [104, 105]
      (Or.inl ⟨rfl, rfl⟩)).1,
    by decide,
    (C13_start_rejects_bad_flags sampleAnswers {}
      [PeerCall.Start sampleAnswers { can_discover := true } []]
      { can_use_broadcast := false, can_discover := true } [104, 105]
      (Or.inl ⟨rfl, rfl⟩)).2.2⟩

/-- C14: `IsRightTime(last, now, period)` returns `(true, period)` when `last = 0`;
otherwise `(true, 2 * period - (now - last))` when `now - last ≥ period`; otherwise
`(false, period - (now - last))`; in particular it fires whenever `last = 0`, whatever
`period` and `now` are.  (Exact integer arithmetic: no overflow.) -/
theorem C14_IsRightTime_cases (last now period : Int) :
    (last = 0 → IsRightTime last now period = (true, period)) ∧
    (last ≠ 0 → now - last ≥ period →
      IsRightTime last now period = (true, 2 * period - (now - last))) ∧
    (last ≠ 0 → now - last < period →
      IsRightTime last now period = (false, period - (now - last))) ∧
    (IsRightTime 0 now period).1 = true := by
  refine ⟨?_, ?_, ?_, ?_⟩
  · intro h
    unfold IsRightTime
    simp [h]
  · intro h1 h2
    unfold IsRightTime
    have h3 : (last == 0) = false := by simpa using h1
    simp only [h3, Bool.false_eq_true, if_false, h2, ge_iff_le, if_true]
    congr 1
    omega
  · intro h1 h2
    unfold IsRightTime
    have h3 : (last == 0) = false := by simpa using h1
    have h4 : ¬ (now - last ≥ period) := by omega
    simp only [h3, Bool.false_eq_true, if_false, h4]
  · unfold IsRightTime
    simp

/-- C15, evaluated on the code: in a peer that only listens (`can_discover` set,
`can_be_discovered` not set) the send schedule is never consulted and `to_sleep_ms` keeps
its initial `0`, so the first iteration passes `0` to `SleepFor` although the two remaining
intervals are 5000 ms and 10000 ms, and so does a later iteration 400 ms after the first
sweep, where they are 5000 ms and 9600 ms. -/
theorem C15_listener_sleeps_zero :
    sampleListener.exit_ = false ∧
    sampleListener.parameters_.can_discover = true ∧
    sampleListener.parameters_.can_be_discovered = false ∧
    (SendingThreadFunc_iteration Packet.Serialize sampleListener {} 1000).to_sleep_ms =
      some 0 ∧
    min (IsRightTime 0 1000 sampleListener.parameters_.send_timeout_ms).2
      (IsRightTime 0 1000 sampleListener.parameters_.discovered_peer_ttl_ms).2 = 5000 ∧
    (SendingThreadFunc_iteration Packet.Serialize sampleListener {} 1000).locals =
      { last_send_time_ms := 0, last_delete_idle_ms := 1000 } ∧
    (SendingThreadFunc_iteration Packet.Serialize sampleListener
      { last_send_time_ms := 0, last_delete_idle_ms := 1000 } 1400).to_sleep_ms = some 0 ∧
    min (IsRightTime 0 1400 sampleListener.parameters_.send_timeout_ms).2
      (IsRightTime 1000 1400 sampleListener.parameters_.discovered_peer_ttl_ms).2 = 5000 := by
  decide

/-- C17: for `last ≠ 0`, `period ≥ 0` and `now ≥ last`: when `IsRightTime` returns false its
wait lies in `(0, period]`; when it returns true its wait is at most `period`; the wait is
negative exactly when `now - last > 2 * period`; and in that situation an iteration of the
sending thread of a peer that announces itself without listening passes this negative
duration to `SleepFor`. -/
theorem C17_IsRightTime_wait_bounds (last now period : Int)
    (hlast : last ≠ 0) (hperiod : 0 ≤ period) (hnow : last ≤ now) :
    ((IsRightTime last now period).1 = false →
      0 < (IsRightTime last now period).2 ∧ (IsRightTime last now period).2 ≤ period) ∧
    ((IsRightTime last now period).1 = true → (IsRightTime last now period).2 ≤ period) ∧
    ((IsRightTime last now period).2 < 0 ↔ now - last > 2 * period) ∧
    (∀ (Serialize : Packet → ProtocolVersion → Option Bytes) (env : PeerEnv)
      (locals : SendingThreadLocals),
      env.exit_ = false → env.parameters_.can_be_discovered = true →
      env.parameters_.can_discover = false → env.parameters_.send_timeout_ms = period →
      locals.last_send_time_ms = last → now - last > 2 * period →
      ∃ d, (SendingThreadFunc_iteration Serialize env locals now).to_sleep_ms = some d ∧
        d = (IsRightTime last now period).2 ∧ d < 0) := by
  have h3 : (last == 0) = false := by simpa using hlast
  have hval : IsRightTime last now period =
      if now - last ≥ period then (true, period - (now - last - period))
      else (false, period - (now - last)) := by
    unfold IsRightTime
    simp only [h3, Bool.false_eq_true, if_false]
  have hneg : (IsRightTime last now period).2 < 0 ↔ now - last > 2 * period := by
    rw [hval]
    by_cases h : now - last ≥ period
    · rw [if_pos h]
      constructor <;> intro h2 <;> simp only [] at h2 ⊢ <;> omega
    · rw [if_neg h]
      constructor <;> intro h2 <;> simp only [] at h2 ⊢ <;> omega
  refine ⟨?_, ?_, hneg, ?_⟩
  · rw [hval]
    by_cases h : now - last ≥ period
    · rw [if_pos h]
      intro h2
      exact Bool.noConfusion h2
    · rw [if_neg h]
      intro _
      constructor <;> simp only [] <;> omega
  · rw [hval]
    by_cases h : now - last ≥ period
    · rw [if_pos h]
      intro _
      simp only []
      omega
    · rw [if_neg h]
      intro h2
      exact Bool.noConfusion h2
  · intro Serialize env locals hexit hbd hd hperiod2 hl hbehind
    refine ⟨_, SendingThreadFunc_iteration_to_sleep Serialize env locals now hexit, ?_, ?_⟩
    · simp only [hbd, hd, hperiod2, hl, if_true, if_false, Bool.false_eq_true]
    · simp only [hbd, hd, hperiod2, hl, if_true, if_false, Bool.false_eq_true]
      exact hneg.mpr hbehind

/-- Instance of C17: the last announcement went out at 1000 ms, the period is 5000 ms and
the thread runs again at 12000 ms, more than two periods later. -/
theorem C17_IsRightTime_wait_bounds_witness :
    IsRightTime 1000 12000 5000 = (true, -1000) ∧
    ((IsRightTime 1000 12000 5000).2 < 0 ↔ (12000 : Int) - 1000 > 2 * 5000) ∧
    (∃ d, (SendingThreadFunc_iteration Packet.Serialize
        { sampleFresh with parameters_ := { application_id := 7, can_be_discovered := true } }
        { last_send_time_ms := 1000 } 12000).to_sleep_ms = some d ∧
      d = (IsRightTime 1000 12000 5000).2 ∧ d < 0) :=
  ⟨by decide,
    (C17_IsRightTime_wait_bounds 1000 12000 5000 (by decide) (by decide) (by decide)).2.2.1,
    (C17_IsRightTime_wait_bounds 1000 12000 5000 (by decide) (by decide) (by decide)).2.2.2
      Packet.Serialize
      { sampleFresh with parameters_ := { application_id := 7, can_be_discovered := true } }
      { last_send_time_ms := 1000 } rfl rfl rfl rfl rfl (by decide)⟩

/-- C16: for a read position inside the buffer and a width `n` (1, 2, 4 or 8 in the code,
any `n` here), the parse direction returns false and leaves the view, read position included, as it
was when fewer than `n` bytes remain unparsed; when at least `n` bytes remain it returns
true without `BufferView::Read` ever failing, the value is the big-endian number of the `n`
bytes at positions `parsed_` to `parsed_ + n - 1`, which all lie inside the buffer, the read
position advances by `n` and the buffer is unchanged. -/
theorem C16_parse_stays_inside_buffer (n value0 : Nat) (buffer_view : BufferView)
    (hpos : buffer_view.parsed_ ≤ buffer_view.buffer_.length) :
    (buffer_view.LeftUnparsed < n →
      SerializeUnsignedIntegerBigEndian n SerializeDirection.kParse value0 buffer_view =
        some (false, 0, buffer_view)) ∧
    (n ≤ buffer_view.LeftUnparsed →
      SerializeUnsignedIntegerBigEndian n SerializeDirection.kParse value0 buffer_view =
        some (true,
          big_endian_value ((buffer_view.buffer_.drop buffer_view.parsed_).take n),
          { buffer_view with parsed_ := buffer_view.parsed_ + n }) ∧
      ((buffer_view.buffer_.drop buffer_view.parsed_).take n).length = n ∧
      (∀ i, i < n → buffer_view.parsed_ + i < buffer_view.buffer_.length ∧
        ((buffer_view.buffer_.drop buffer_view.parsed_).take n)[i]? =
          buffer_view.buffer_[buffer_view.parsed_ + i]?)) ∧
    SerializeUnsignedIntegerBigEndian n SerializeDirection.kParse value0 buffer_view ≠
      none := by
  have hshort : buffer_view.LeftUnparsed < n →
      SerializeUnsignedIntegerBigEndian n SerializeDirection.kParse value0 buffer_view =
        some (false, 0, buffer_view) := by
    intro h
    unfold BufferView.LeftUnparsed at h
    exact SerializeUnsignedIntegerBigEndian_parse_short n value0 buffer_view (by omega)
  have hlong : n ≤ buffer_view.LeftUnparsed →
      SerializeUnsignedIntegerBigEndian n SerializeDirection.kParse value0 buffer_view =
        some (true,
          big_endian_value ((buffer_view.buffer_.drop buffer_view.parsed_).take n),
          { buffer_view with parsed_ := buffer_view.parsed_ + n }) := by
    intro h
    unfold BufferView.LeftUnparsed at h
    exact SerializeUnsignedIntegerBigEndian_parse n value0 buffer_view (by omega)
  refine ⟨hshort, ?_, ?_⟩
  · intro h
    refine ⟨hlong h, ?_, ?_⟩
    · unfold BufferView.LeftUnparsed at h
      rw [List.length_take, List.length_drop]
      omega
    · intro i hi
      unfold BufferView.LeftUnparsed at h
      refine ⟨by omega, ?_⟩
      rw [List.getElem?_take_of_lt hi, List.getElem?_drop]
  · by_cases h : n ≤ buffer_view.LeftUnparsed
    · rw [hlong h]
      exact Option.noConfusion
    · rw [hshort (by omega)]
      exact Option.noConfusion

/-- Instance of C16: two bytes remain after position 1 of a buffer of three bytes; reading
a 16-bit integer succeeds and reading a 32-bit integer is refused. -/
theorem C16_parse_stays_inside_buffer_witness :
    SerializeUnsignedIntegerBigEndian 4 SerializeDirection.kParse 9
        { buffer_ := [1, 2, 3], parsed_ := 1 } =
      some (false, 0, { buffer_ := [1, 2, 3], parsed_ := 1 }) ∧
    SerializeUnsignedIntegerBigEndian 2 SerializeDirection.kParse 9
        { buffer_ := [1, 2, 3], parsed_ := 1 } =
      some (true, 515, { buffer_ := [1, 2, 3], parsed_ := 3 }) ∧
    (SerializeUnsignedIntegerBigEndian 2 SerializeDirection.kParse 9
        { buffer_ := [1, 2, 3], parsed_ := 1 } =
      some (true,
        big_endian_value ((([1, 2, 3] : Bytes).drop 1).take 2),
        { buffer_ := [1, 2, 3], parsed_ := 1 + 2 }) ∧
      ((([1, 2, 3] : Bytes).drop 1).take 2).length = 2 ∧
      (∀ i, i < 2 → 1 + i < ([1, 2, 3] : Bytes).length ∧
        ((([1, 2, 3] : Bytes).drop 1).take 2)[i]? = ([1, 2, 3] : Bytes)[1 + i]?)) :=
  ⟨(C16_parse_stays_inside_buffer 4 9 { buffer_ := [1, 2, 3], parsed_ := 1 }
      (by decide)).1 (by decide),
    by decide,
    (C16_parse_stays_inside_buffer 2 9 { buffer_ := [1, 2, 3], parsed_ := 1 }
      (by decide)).2.1 (by decide)⟩

end discovery
